import Mathlib

/-!
Verification development for the TNVED code search engine
(files src/utils/predictor.py, src/utils/text_processing.py,
src/utils/category_filter.py of the bot repository).

Modelling conventions (shallow embedding):
* Python strings are embedded as lists of characters (Str := List Char);
  all scores are exact rationals (ℚ) standing for the Python floats, whose
  arithmetic in the relevant code paths is exact decimal arithmetic.
* External libraries are oracles: the NLTK lemmatizer (lemmatize_text),
  the sklearn TF-IDF search, the sentence-transformers/FAISS semantic
  search, the fuzzywuzzy string metrics and the PostgreSQL code lookup
  are unconstrained function parameters in the environment Env.
  Everything written in the repository itself is translated directly.
* The md5 cache key of _get_cache_key is modelled by the underlying
  plain text "query:lang" that the code hashes (hash collisions are
  outside the model).
-/

/-- Str models a Python str as its list of characters. -/
abbrev Str := List Char

/-- str converts a Lean string literal to the Str embedding. -/
def str (s : String) : Str := s.toList

/-- isSpaceC models Python whitespace for str.strip / str.split / \s. -/
def isSpaceC (c : Char) : Bool :=
  c = ' ' ∨ c = '\t' ∨ c = '\n' ∨ c = '\r'

/-- isDigitC models str.isdigit character-wise (ASCII digits). -/
def isDigitC (c : Char) : Bool := 48 ≤ c.toNat ∧ c.toNat ≤ 57

/-- isCyrC recognises the Cyrillic block (U+0400 to U+04FF), the alphabet
of the catalogue and of all keyword tables. -/
def isCyrC (c : Char) : Bool := 1024 ≤ c.toNat ∧ c.toNat ≤ 1279

/-- isWordC models the regex class \w (Unicode word character) for the
alphabets that occur in this program: ASCII alphanumerics, underscore and
Cyrillic letters. -/
def isWordC (c : Char) : Bool :=
  isDigitC c ∨ (65 ≤ c.toNat ∧ c.toNat ≤ 90) ∨ (97 ≤ c.toNat ∧ c.toNat ≤ 122) ∨
  c = '_' ∨ isCyrC c

/-- lowerTable lists the upper-case characters relevant to this program
(ASCII A..Z and Cyrillic А..Я, Ё) with their lower-case forms. -/
def lowerTable : List (Char × Char) := [('A', 'a'), ('B', 'b'), ('C', 'c'), ('D', 'd'), ('E', 'e'), ('F', 'f'), ('G', 'g'), ('H', 'h'), ('I', 'i'), ('J', 'j'), ('K', 'k'), ('L', 'l'), ('M', 'm'), ('N', 'n'), ('O', 'o'), ('P', 'p'), ('Q', 'q'), ('R', 'r'), ('S', 's'), ('T', 't'), ('U', 'u'), ('V', 'v'), ('W', 'w'), ('X', 'x'), ('Y', 'y'), ('Z', 'z'), ('А', 'а'), ('Б', 'б'), ('В', 'в'), ('Г', 'г'), ('Д', 'д'), ('Е', 'е'), ('Ж', 'ж'), ('З', 'з'), ('И', 'и'), ('Й', 'й'), ('К', 'к'), ('Л', 'л'), ('М', 'м'), ('Н', 'н'), ('О', 'о'), ('П', 'п'), ('Р', 'р'), ('С', 'с'), ('Т', 'т'), ('У', 'у'), ('Ф', 'ф'), ('Х', 'х'), ('Ц', 'ц'), ('Ч', 'ч'), ('Ш', 'ш'), ('Щ', 'щ'), ('Ъ', 'ъ'), ('Ы', 'ы'), ('Ь', 'ь'), ('Э', 'э'), ('Ю', 'ю'), ('Я', 'я'), ('Ё', 'ё')]

/-- toLowerC models str.lower character-wise via lowerTable. -/
def toLowerC (c : Char) : Char :=
  ((lowerTable.find? (fun p => p.1 = c)).map Prod.snd).getD c

/-- pyLower models str.lower. -/
def pyLower (s : Str) : Str := s.map toLowerC

/-- pyStrip models str.strip (drop leading and trailing whitespace). -/
def pyStrip (s : Str) : Str :=
  ((s.dropWhile isSpaceC).reverse.dropWhile isSpaceC).reverse

/-- startsWith models Python str.startswith: startsWith p s tests that p
is a prefix of s (written casing on the pattern first so that it
computes even when the subject has a symbolic tail). -/
def startsWith : Str → Str → Bool
  | [], _ => true
  | a :: ps, s =>
    match s with
    | [] => false
    | b :: ss => a == b && startsWith ps ss

/-- isSub models the Python substring test (needle in haystack). -/
def isSub (n h : Str) : Bool := h.tails.any (fun t => startsWith n t)

/-- findSub models str.find restricted to the found case: the index of
the first occurrence of n in h, none when absent. -/
def findSub (n : Str) : Str → Option Nat
  | [] => if n = [] then some 0 else none
  | c :: rest =>
    if startsWith n (c :: rest) then some 0
    else (findSub n rest).map (· + 1)

/-- pyReplaceFuel is the fuel-indexed worker for pyReplace; fuel at least
the length of the subject string makes it total. -/
def pyReplaceFuel (old new : Str) : Nat → Str → Str
  | _, [] => []
  | 0, s => s
  | fuel + 1, c :: rest =>
    if old ≠ [] ∧ startsWith old (c :: rest) = true then
      new ++ pyReplaceFuel old new fuel ((c :: rest).drop old.length)
    else
      c :: pyReplaceFuel old new fuel rest

/-- pyReplace models str.replace(old, new) (all occurrences, left to
right, non-overlapping). -/
def pyReplace (s old new : Str) : Str := pyReplaceFuel old new s.length s

/-- splitWsGo is the accumulator worker for splitWs (current word is held
reversed in acc). -/
def splitWsGo : Str → Str → List Str
  | [], acc => if acc = [] then [] else [acc.reverse]
  | c :: rest, acc =>
    if isSpaceC c then
      if acc = [] then splitWsGo rest [] else acc.reverse :: splitWsGo rest []
    else splitWsGo rest (c :: acc)

/-- splitWs models str.split() with no argument: split on whitespace
runs, no empty fields. -/
def splitWs (s : Str) : List Str := splitWsGo s []

/-- joinSp models " ".join(words). -/
def joinSp (ws : List Str) : Str :=
  match ws with
  | [] => []
  | w :: rest => w ++ rest.foldl (fun acc v => acc ++ (' ' :: v)) []

/-- collapseWsGo squeezes whitespace runs to single spaces (worker for
normalize_text, models re.sub of one-or-more whitespace). -/
def collapseWsGo : Str → Bool → Str
  | [], _ => []
  | c :: rest, prevSpace =>
    if isSpaceC c then
      if prevSpace then collapseWsGo rest true
      else ' ' :: collapseWsGo rest true
    else c :: collapseWsGo rest false

/-- collapseWs models re.sub of whitespace-plus with a single space. -/
def collapseWs (s : Str) : Str := collapseWsGo s false

/-- pyIsDigit models str.isdigit (non-empty and all digits). -/
def pyIsDigit (s : Str) : Bool := s ≠ [] ∧ s.all isDigitC

/-- keptPunct is the punctuation kept by the normalisation regex
character class .,;:!?- of normalize_text. -/
def keptPunct (c : Char) : Bool :=
  c = '.' ∨ c = ',' ∨ c = ';' ∨ c = ':' ∨ c = '!' ∨ c = '?' ∨ c = '-'

-- Quick sanity checks of the string layer.
example : pyLower (str "Помидор X") = str "помидор x" := by decide
example : pyStrip (str "  аб в  ") = str "аб в" := by decide
example : isSub (str "томат") (str "стоматы") = true := by decide
example : isSub (str "томат") (str "огурец") = false := by decide
example : findSub (str "б") (str "а б") = some 2 := by decide
example : pyReplace (str "а ту б") (str "ту ") (str " ") = str "а  б" := by decide
example : splitWs (str "  а  бв г ") = [str "а", str "бв", str "г"] := by decide
example : joinSp [str "аб", str "в"] = str "аб в" := by decide
example : collapseWs (str "а  б   в") = str "а б в" := by decide

/-! ## Text normalisation (src/utils/text_processing.py) -/

/-- normalize_text models text_processing.normalize_text: lower-case,
replace characters outside the class word/space/.,;:!?- by spaces,
collapse whitespace runs, strip. -/
def normalize_text (text : Str) : Str :=
  let lowered := pyLower text
  let substituted := lowered.map
    (fun c => if isWordC c ∨ isSpaceC c ∨ keptPunct c then c else ' ')
  pyStrip (collapseWs substituted)

/-- clean_description_for_output models
text_processing.clean_description_for_output: collapse whitespace first,
then replace special characters by spaces, then strip (no lowering). -/
def clean_description_for_output (description : Str) : Str :=
  let collapsed := collapseWs description
  let substituted := collapsed.map
    (fun c => if isWordC c ∨ isSpaceC c ∨ keptPunct c then c else ' ')
  pyStrip substituted

def variation_to_base_keys : List Str := [
  str "майки", str "майку", str "майкой", str "майке", str "майками",
  str "майкам", str "майках", str "майка", str "футболки", str "футболку",
  str "футболкой", str "футболке", str "футболками", str "футболкам", str "футболках",
  str "футболка", str "рубашки", str "рубашку", str "рубашкой", str "рубашке",
  str "рубашками", str "рубашкам", str "рубашках", str "рубашка", str "брюк",
  str "брюкам", str "брюками", str "брюках", str "брюки", str "джинс",
  str "джинсам", str "джинсами", str "джинсах", str "джинсы", str "платья",
  str "платью", str "платьем", str "платьями", str "платьям", str "платьях",
  str "платье", str "костюмы", str "костюму", str "костюмом", str "костюмами",
  str "костюмам", str "костюмах", str "костюм", str "пиджаки", str "пиджаком",
  str "пиджаку", str "пиджаками", str "пиджакам", str "пиджаках", str "пиджак",
  str "куртки", str "куртку", str "курткой", str "куртками", str "курткам",
  str "куртках", str "куртка", str "пальто", str "шорт", str "шортам",
  str "шортами", str "шортах", str "шорты", str "юбки", str "юбку",
  str "юбкой", str "юбками", str "юбкам", str "юбках", str "юбка",
  str "сливы", str "сливу", str "сливой", str "сливе", str "сливами",
  str "сливам", str "сливах", str "слива", str "абрикосы", str "абрикосу",
  str "абрикосом", str "абрикосами", str "абрикосам", str "абрикосах", str "абрикос",
  str "вишни", str "вишню", str "вишней", str "вишне", str "вишнями",
  str "вишням", str "вишнях", str "вишня", str "черешни", str "черешню",
  str "черешней", str "черешне", str "черешнями", str "черешням", str "черешнях",
  str "черешня", str "персики", str "персику", str "персиком", str "персиками",
  str "персикам", str "персиках", str "персик", str "яблоки", str "яблоку",
  str "яблоком", str "яблоками", str "яблокам", str "яблоках", str "яблоко",
  str "груши", str "грушу", str "грушей", str "груше", str "грушами",
  str "грушам", str "грушах", str "груша", str "апельсины", str "апельсину",
  str "апельсином", str "апельсинами", str "апельсинам", str "апельсинах", str "апельсин",
  str "бананы", str "банану", str "бананом", str "бананами", str "бананам",
  str "бананах", str "банан", str "лимоны", str "лимону", str "лимоном",
  str "лимонами", str "лимонам", str "лимонах", str "лимон", str "моркови",
  str "морковью", str "морковями", str "морковям", str "морковях", str "морковь",
  str "картофеля", str "картофелю", str "картофелем", str "картофелями", str "картофелям",
  str "картофелях", str "картофель", str "огурцы", str "огурцу", str "огурцом",
  str "огурцами", str "огурцам", str "огурцах", str "огурец", str "помидоры",
  str "помидору", str "помидором", str "помидорами", str "помидорам", str "помидорах",
  str "помидор", str "капусты", str "капусту", str "капустой", str "капусте",
  str "капустами", str "капустам", str "капустах", str "капуста", str "луки",
  str "луку", str "луком", str "луками", str "лукам", str "луках",
  str "лук", str "чесноки", str "чесноку", str "чесноком", str "чесноками",
  str "чеснокам", str "чесноках", str "чеснок", str "свеклы", str "свеклу",
  str "свеклой", str "свекле", str "свеклами", str "свеклам", str "свеклах",
  str "свекла", str "редисы", str "редису", str "редисом", str "редисами",
  str "редисам", str "редисах", str "редис", str "арбузы", str "арбузу",
  str "арбузом", str "арбузами", str "арбузам", str "арбузах", str "арбуз",
  str "дыни", str "дыню", str "дыней", str "дыне", str "дынями",
  str "дыням", str "дынях", str "дыня"
]

/-- contains_valid_word models text_processing.contains_valid_word:
after normalisation, some word is a key of VARIATION_TO_BASE or is longer
than one character. -/
def contains_valid_word (text : Str) : Bool :=
  let normalized := normalize_text text
  let words := splitWs normalized
  words.any (fun w => w ∈ variation_to_base_keys ∨ 1 < w.length)

/-! ## Stopword removal and query expansion (src/utils/predictor.py) -/

def stopwords_ru : List Str := [
  str "а", str "бы", str "был", str "было", str "быть", str "в",
  str "вам", str "вас", str "вдруг", str "ведь", str "во", str "вот",
  str "все", str "вы", str "да", str "даже", str "до", str "его",
  str "ее", str "ему", str "если", str "еще", str "же", str "за",
  str "и", str "из", str "или", str "к", str "как", str "когда",
  str "ли", str "меня", str "мне", str "на", str "не", str "него",
  str "нет", str "ни", str "нибудь", str "но", str "ну", str "о",
  str "он", str "она", str "опять", str "от", str "по", str "с",
  str "со", str "так", str "теперь", str "то", str "только", str "ты",
  str "у", str "уж", str "уже", str "что", str "я"
]

def stopwords_uz : List Str := [
  str "agar", str "ana", str "bilan", str "biz", str "bu", str "chunki",
  str "da", str "esa", str "ham", str "lekin", str "mana", str "men",
  str "sen", str "shu", str "siz", str "u", str "uchun", str "ular",
  str "va", str "yoki"
]

def stopwords_en : List Str := [
  str "a", str "about", str "above", str "after", str "again", str "an",
  str "and", str "at", str "before", str "below", str "between", str "but",
  str "by", str "during", str "for", str "from", str "further", str "in",
  str "into", str "of", str "on", str "or", str "the", str "then",
  str "through", str "to", str "under", str "up", str "with"
]

/-- stopwords_for models STOPWORDS.get(lang, STOPWORDS of ru). -/
def stopwords_for (lang : Str) : List Str :=
  if lang = str "ru" then stopwords_ru
  else if lang = str "uz" then stopwords_uz
  else if lang = str "en" then stopwords_en
  else stopwords_ru

/-- remove_stopwords models predictor.remove_stopwords: lower, split,
drop stopwords and one-character words, rejoin with single spaces. -/
def remove_stopwords (text : Str) (lang : Str) : Str :=
  let words := splitWs (pyLower text)
  let sw := stopwords_for lang
  joinSp (words.filter (fun w => w ∉ sw ∧ 1 < w.length))

def administrative_terms : List Str := [
  str "критерий происхождения", str "критерии происхождения", str "товарное происхождение",
  str "страна происхождения", str "сертификат происхождения", str "декларация происхождения",
  str "подтверждение происхождения", str "документ происхождения", str "гост",
  str "ту ", str "тн вэд", str "код тн вэд",
  str "классификация", str "таможенное оформление", str "таможенная процедура",
  str "импорт", str "экспорт", str "ввоз",
  str "вывоз", str "сертификат качества", str "сертификат соответствия",
  str "санитарно-эпидемиологическое заключение", str "фитосанитарный сертификат", str "ветеринарный сертификат"
]

def product_synonyms : List (Str × Str) := [
  (str "помидоры", str "томаты"),
  (str "помидор", str "томаты"),
  (str "картошка", str "картофель"),
  (str "капуста белокочанная", str "капуста"),
  (str "лук репчатый", str "лук"),
  (str "лук-репка", str "лук"),
  (str "морковка", str "морковь"),
  (str "свёкла", str "свекла"),
  (str "огурчики", str "огурцы"),
  (str "яблочки", str "яблоки"),
  (str "грушки", str "груши")
]

def product_indicators : List Str := [
  str "томаты", str "помидоры", str "картофель", str "капуста",
  str "лук", str "морковь", str "огурцы", str "свекла",
  str "яблоки", str "груши", str "виноград", str "изюм",
  str "бананы", str "апельсины", str "лимоны", str "мандарины",
  str "орех", str "арахис"
]

def descriptor_word_list : List Str := [
  str "свежий", str "свежие", str "сушеный",
  str "сушеные", str "охлажденный", str "охлажденные"
]

/-- expand_dedup models the de-duplication loop at the end of
expand_query_with_corrections: keep the first occurrence of each variant
(membership is tested on the un-stripped variant, the stripped variant is
appended, mirroring the source). -/
def expand_dedup : List Str → List Str → List Str
  | [], _ => []
  | q :: rest, seen =>
    if q ≠ [] ∧ q ∉ seen ∧ 1 < (pyStrip q).length then
      pyStrip q :: expand_dedup rest (q :: seen)
    else expand_dedup rest seen

/-- normalized_query_of is the administrative-term removal followed by
the product-synonym substitution of expand_query_with_corrections. -/
def normalized_query_of (query_clean : Str) : Str :=
  let cleaned0 := administrative_terms.foldl
    (fun acc term => pyReplace acc term [' ']) query_clean
  let cleaned_query := pyStrip (joinSp (splitWs cleaned0))
  product_synonyms.foldl
    (fun acc p => if isSub p.1 acc then pyReplace acc p.1 p.2 else acc)
    cleaned_query

/-- priority_words_of lists the words of the normalised query that carry
a product indicator (predictor lines building priority_words). -/
def priority_words_of (nq : Str) : List Str :=
  (splitWs nq).filter (fun w => product_indicators.any (fun p => isSub p w))

/-- descriptor_words_of lists the non-priority descriptor words of the
normalised query. -/
def descriptor_words_of (nq : Str) : List Str :=
  (splitWs nq).filter (fun w =>
    ¬ (product_indicators.any (fun p => isSub p w)) = true ∧
      w ∈ descriptor_word_list)

/-- focused_query_of joins the priority words with the descriptor words
(predictor focused_query). -/
def focused_query_of (nq : Str) : Str :=
  joinSp (priority_words_of nq ++ descriptor_words_of nq)

/-- expand_variants is the list of derived variants (the focused
priority-first variant and the synonym-normalised variant) that
expand_query_with_corrections emits before the cleaned original. -/
def expand_variants (query_clean : Str) : List Str :=
  (if priority_words_of (normalized_query_of query_clean) ≠ [] then
    if focused_query_of (normalized_query_of query_clean) ≠
        normalized_query_of query_clean then
      [focused_query_of (normalized_query_of query_clean)]
    else []
  else []) ++
  (if normalized_query_of query_clean ≠ [] ∧
      normalized_query_of query_clean ≠ query_clean then
    [normalized_query_of query_clean]
  else [])

/-- expand_query_with_corrections models
predictor.expand_query_with_corrections: strip administrative terms,
apply product synonyms, emit a priority-first focused variant, then the
synonym-normalised query, then the stripped lower-cased original, and
de-duplicate preserving order. -/
def expand_query_with_corrections (query : Str) : List Str :=
  if query = [] ∨ (pyStrip query).length < 2 then [query]
  else
    let query_clean := pyLower (pyStrip query)
    let result := expand_dedup (expand_variants query_clean ++ [query_clean]) []
    if result ≠ [] then result else [query]

-- Sanity checks of the expansion against hand-traced Python behaviour.
example : expand_query_with_corrections (str "Томаты") = [str "томаты"] := by decide
example : expand_query_with_corrections (str "помидор") =
    [str "томаты", str "помидор"] := by decide
example : expand_query_with_corrections (str "0702000000") =
    [str "0702000000"] := by decide
example : expand_query_with_corrections (str "х") = [str "х"] := by decide

/-! ## Strippedness lemmas for the query expander -/

/-- A string is stripped when neither end carries whitespace. -/
def strippedStr (s : Str) : Prop :=
  (∀ c, s.head? = some c → isSpaceC c = false) ∧
  (∀ c, s.getLast? = some c → isSpaceC c = false)

lemma toLowerC_space (c : Char) : isSpaceC (toLowerC c) = isSpaceC c := by
  have htab : ∀ p ∈ lowerTable, isSpaceC p.1 = false ∧ isSpaceC p.2 = false := by
    decide
  unfold toLowerC
  cases hf : lowerTable.find? (fun p => p.1 = c) with
  | none => rfl
  | some p =>
    have hmem := List.mem_of_find?_eq_some hf
    have hkey : p.1 = c := by
      have := List.find?_some hf
      simpa using this
    obtain ⟨h1, h2⟩ := htab p hmem
    rw [← hkey, h1]
    simpa using h2

lemma head_dropWhile_false {p : Char → Bool} :
    ∀ (l : Str) (c : Char), (l.dropWhile p).head? = some c → p c = false := by
  intro l
  induction l with
  | nil => intro c h; simp [List.dropWhile] at h
  | cons a t ih =>
    intro c h
    by_cases ha : p a
    · exact ih c (by simpa [List.dropWhile, ha] using h)
    · simp [List.dropWhile, ha] at h
      cases h
      simpa using ha

lemma dropWhile_eq_self_of {p : Char → Bool} (l : Str)
    (h : ∀ c, l.head? = some c → p c = false) : l.dropWhile p = l := by
  cases l with
  | nil => rfl
  | cons a t => simp [List.dropWhile, h a rfl]

lemma pyStrip_eq_self {s : Str} (h : strippedStr s) : pyStrip s = s := by
  obtain ⟨h1, h2⟩ := h
  unfold pyStrip
  rw [dropWhile_eq_self_of s h1]
  rw [dropWhile_eq_self_of s.reverse (by
    intro c hc
    exact h2 c (by simpa [List.head?_reverse] using hc))]
  exact List.reverse_reverse s

lemma getLast_suffix_eq {l t : Str} (h : t <:+ l) (hne : t ≠ []) :
    t.getLast? = l.getLast? := by
  obtain ⟨u, rfl⟩ := h
  exact (List.getLast?_append_of_ne_nil u hne).symm

lemma pyStrip_stripped (s : Str) : strippedStr (pyStrip s) := by
  constructor
  · intro c hc
    unfold pyStrip at hc
    set t := (s.dropWhile isSpaceC).reverse.dropWhile isSpaceC with ht
    rw [List.head?_reverse] at hc
    rcases hu : t with _ | ⟨a, u⟩
    · rw [hu] at hc; simp at hc
    · have hsuf : t <:+ (s.dropWhile isSpaceC).reverse := by
        rw [ht]; exact List.dropWhile_suffix _
      rw [getLast_suffix_eq hsuf (by rw [hu]; simp)] at hc
      rw [List.getLast?_reverse] at hc
      exact head_dropWhile_false s c hc
  · intro c hc
    unfold pyStrip at hc
    rw [List.getLast?_reverse] at hc
    exact head_dropWhile_false _ c hc

lemma dropWhile_map_lower (s : Str) :
    List.dropWhile isSpaceC (s.map toLowerC) =
      (List.dropWhile isSpaceC s).map toLowerC := by
  have hfun : (isSpaceC ∘ toLowerC) = isSpaceC := by
    funext c
    simp [Function.comp, toLowerC_space]
  rw [List.dropWhile_map, hfun]

lemma pyLower_pyStrip (s : Str) : pyLower (pyStrip s) = pyStrip (pyLower s) := by
  unfold pyStrip pyLower
  simp only [← List.map_reverse, dropWhile_map_lower]

lemma clean_stripped (q : Str) : strippedStr (pyLower (pyStrip q)) := by
  rw [pyLower_pyStrip]; exact pyStrip_stripped _

lemma splitWsGo_words : ∀ (s acc : Str), (∀ c ∈ acc, isSpaceC c = false) →
    ∀ w ∈ splitWsGo s acc, w ≠ [] ∧ ∀ c ∈ w, isSpaceC c = false := by
  intro s
  induction s with
  | nil =>
    intro acc hacc w hw
    unfold splitWsGo at hw
    by_cases h : acc = []
    · simp [h] at hw
    · simp [h] at hw
      subst hw
      refine ⟨by simpa using h, ?_⟩
      intro c hc
      exact hacc c (List.mem_reverse.mp hc)
  | cons a t ih =>
    intro acc hacc w hw
    unfold splitWsGo at hw
    by_cases hsp : isSpaceC a
    · rw [if_pos hsp] at hw
      by_cases h : acc = []
      · rw [if_pos h] at hw
        exact ih [] (by simp) w hw
      · rw [if_neg h] at hw
        rcases List.mem_cons.mp hw with h1 | h1
        · subst h1
          refine ⟨by simpa using h, ?_⟩
          intro c hc
          exact hacc c (List.mem_reverse.mp hc)
        · exact ih [] (by simp) w h1
    · rw [if_neg hsp] at hw
      refine ih (a :: acc) ?_ w hw
      intro c hc
      rcases List.mem_cons.mp hc with h1 | h1
      · subst h1; simpa using hsp
      · exact hacc c h1

lemma splitWs_words (s : Str) :
    ∀ w ∈ splitWs s, w ≠ [] ∧ ∀ c ∈ w, isSpaceC c = false :=
  splitWsGo_words s [] (by simp)

lemma joinSp_cons_cons (w v : Str) (rest : List Str) :
    joinSp (w :: v :: rest) = w ++ ' ' :: joinSp (v :: rest) := by
  have hstep : ∀ (l : List Str) (a b : Str),
      l.foldl (fun acc u => acc ++ (' ' :: u)) (a ++ b) =
        a ++ l.foldl (fun acc u => acc ++ (' ' :: u)) b := by
    intro l
    induction l with
    | nil => intro a b; rfl
    | cons u t ih =>
      intro a b
      show t.foldl _ ((a ++ b) ++ (' ' :: u)) = a ++ t.foldl _ (b ++ (' ' :: u))
      rw [List.append_assoc]
      exact ih a (b ++ (' ' :: u))
  show w ++ (v :: rest).foldl _ [] = w ++ ' ' :: (v ++ rest.foldl _ [])
  have h1 : (v :: rest).foldl (fun acc u => acc ++ (' ' :: u)) [] =
      rest.foldl (fun acc u => acc ++ (' ' :: u)) (' ' :: v) := by
    simp [List.foldl_cons]
  have h2 : rest.foldl (fun acc u => acc ++ (' ' :: u)) (' ' :: v) =
      (' ' :: v) ++ rest.foldl (fun acc u => acc ++ (' ' :: u)) [] := by
    have := hstep rest (' ' :: v) []
    simpa using this
  rw [h1, h2]
  rfl

lemma joinSp_stripped : ∀ (ws : List Str), ws ≠ [] →
    (∀ w ∈ ws, w ≠ [] ∧ ∀ c ∈ w, isSpaceC c = false) →
    joinSp ws ≠ [] ∧ strippedStr (joinSp ws) := by
  intro ws
  induction ws with
  | nil => intro h; exact absurd rfl h
  | cons w rest ih =>
    intro _ hws
    obtain ⟨hwne, hwc⟩ := hws w (by simp)
    cases rest with
    | nil =>
      have hj : joinSp [w] = w := by
        show w ++ [] = w
        simp
      rw [hj]
      refine ⟨hwne, ?_, ?_⟩
      · intro c hc
        exact hwc c (List.mem_of_mem_head? hc)
      · intro c hc
        exact hwc c (List.mem_of_mem_getLast? hc)
    | cons v rest2 =>
      obtain ⟨hjne, hjh, hjl⟩ := ih (by simp)
        (fun u hu => hws u (List.mem_cons_of_mem w hu))
      rw [joinSp_cons_cons]
      constructor
      · simp [hwne]
      constructor
      · intro c hc
        rw [List.head?_append_of_ne_nil _ hwne] at hc
        exact hwc c (List.mem_of_mem_head? hc)
      · intro c hc
        rw [List.getLast?_append_of_ne_nil _ (by simp)] at hc
        have : (' ' :: joinSp (v :: rest2)).getLast? =
            (joinSp (v :: rest2)).getLast? := by
          show ([' '] ++ joinSp (v :: rest2)).getLast? = _
          exact List.getLast?_append_of_ne_nil _ hjne
        rw [this] at hc
        exact hjl c hc

lemma pyReplaceFuel_ne_nil {old new : Str} (hnew : new ≠ []) :
    ∀ (fuel : Nat) (s : Str), s ≠ [] → pyReplaceFuel old new fuel s ≠ [] := by
  intro fuel s hs
  cases s with
  | nil => exact absurd rfl hs
  | cons c rest =>
    cases fuel with
    | zero => simp [pyReplaceFuel]
    | succ f =>
      unfold pyReplaceFuel
      split
      · simp [hnew]
      · simp

lemma pyReplaceFuel_head {old new : Str} (hnew : new ≠ [])
    (hnh : ∀ c, new.head? = some c → isSpaceC c = false) :
    ∀ (fuel : Nat) (s : Str), (∀ c, s.head? = some c → isSpaceC c = false) →
    ∀ c, (pyReplaceFuel old new fuel s).head? = some c → isSpaceC c = false := by
  intro fuel s hs c hc
  cases s with
  | nil => simp [pyReplaceFuel] at hc
  | cons a rest =>
    cases fuel with
    | zero => exact hs c hc
    | succ f =>
      unfold pyReplaceFuel at hc
      split at hc
      · cases hn : new with
        | nil => exact absurd hn hnew
        | cons b bs =>
          rw [hn] at hc
          simp only [List.cons_append, List.head?_cons, Option.some.injEq] at hc
          subst hc
          exact hnh b (by rw [hn]; rfl)
      · simp only [List.head?_cons, Option.some.injEq] at hc
        subst hc
        exact hs a rfl

lemma getLast_cons_ne_nil {α : Type} {a : α} {l : List α} (h : l ≠ []) :
    (a :: l).getLast? = l.getLast? := by
  show ([a] ++ l).getLast? = l.getLast?
  exact List.getLast?_append_of_ne_nil [a] h

lemma getLast_drop {n : Nat} {l : Str} (h : List.drop n l ≠ []) :
    (List.drop n l).getLast? = l.getLast? := by
  conv_rhs => rw [← List.take_append_drop n l]
  exact (List.getLast?_append_of_ne_nil _ h).symm

lemma pyReplaceFuel_nil (old new : Str) (fuel : Nat) :
    pyReplaceFuel old new fuel [] = [] := by
  cases fuel <;> rfl

lemma pyReplaceFuel_last {old new : Str} (hnew : new ≠ [])
    (hnl : ∀ c, new.getLast? = some c → isSpaceC c = false) :
    ∀ (fuel : Nat) (s : Str), (∀ c, s.getLast? = some c → isSpaceC c = false) →
    ∀ c, (pyReplaceFuel old new fuel s).getLast? = some c → isSpaceC c = false := by
  intro fuel
  induction fuel with
  | zero =>
    intro s hs c hc
    cases s with
    | nil => simp [pyReplaceFuel] at hc
    | cons a rest => exact hs c hc
  | succ f ih =>
    intro s hs c hc
    cases s with
    | nil => simp [pyReplaceFuel] at hc
    | cons a rest =>
      unfold pyReplaceFuel at hc
      split at hc
      · rcases hR : pyReplaceFuel old new f ((a :: rest).drop old.length)
            with _ | _
        · rw [hR] at hc
          simp only [List.append_nil] at hc
          exact hnl c hc
        · have hRne : pyReplaceFuel old new f ((a :: rest).drop old.length) ≠ [] := by
            rw [hR]; simp
          rw [List.getLast?_append_of_ne_nil _ hRne] at hc
          have hdne : (a :: rest).drop old.length ≠ [] := by
            intro hd
            rw [hd, pyReplaceFuel_nil] at hRne
            exact hRne rfl
          refine ih ((a :: rest).drop old.length) ?_ c hc
          intro d hd
          rw [getLast_drop hdne] at hd
          exact hs d hd
      · rcases hrest : rest with _ | ⟨b, rest2⟩
        · subst hrest
          rw [pyReplaceFuel_nil] at hc
          simp only [List.getLast?_singleton, Option.some.injEq] at hc
          subst hc
          exact hs a (by simp)
        · have hRne : pyReplaceFuel old new f rest ≠ [] :=
            pyReplaceFuel_ne_nil hnew f rest (by rw [hrest]; simp)
          rw [getLast_cons_ne_nil hRne] at hc
          refine ih rest ?_ c hc
          intro d hd
          have : rest.getLast? = (a :: rest).getLast? :=
            (getLast_cons_ne_nil (by rw [hrest]; simp)).symm
          rw [this] at hd
          exact hs d hd

lemma pyReplace_stripped {s : Str} (old new : Str) (hnew : new ≠ [])
    (hnsp : ∀ c ∈ new, isSpaceC c = false)
    (hs : strippedStr s) : strippedStr (pyReplace s old new) :=
  ⟨pyReplaceFuel_head hnew
      (fun c hc => hnsp c (List.mem_of_mem_head? hc)) s.length s hs.1,
   pyReplaceFuel_last hnew
      (fun c hc => hnsp c (List.mem_of_mem_getLast? hc)) s.length s hs.2⟩

lemma synonym_fold_stripped :
    ∀ (l : List (Str × Str)),
    (∀ p ∈ l, p.2 ≠ [] ∧ ∀ c ∈ p.2, isSpaceC c = false) →
    ∀ (s : Str), strippedStr s →
    strippedStr (l.foldl
      (fun acc p => if isSub p.1 acc then pyReplace acc p.1 p.2 else acc) s) := by
  intro l
  induction l with
  | nil => intro _ s hs; exact hs
  | cons p t ih =>
    intro hl s hs
    rw [List.foldl_cons]
    obtain ⟨h1, h2⟩ := hl p (by simp)
    refine ih (fun q hq => hl q (List.mem_cons_of_mem p hq)) _ ?_
    by_cases hsub : isSub p.1 s
    · rw [if_pos hsub]
      exact pyReplace_stripped p.1 p.2 h1 h2 hs
    · rw [if_neg hsub]
      exact hs

lemma product_synonyms_repl_ok :
    product_synonyms.all
      (fun p => !(p.2.isEmpty) && p.2.all (fun c => !isSpaceC c)) = true := by
  decide

lemma normalized_query_stripped (q : Str) :
    strippedStr (normalized_query_of q) := by
  unfold normalized_query_of
  refine synonym_fold_stripped product_synonyms ?_ _ (pyStrip_stripped _)
  intro p hp
  have hb := List.all_eq_true.mp product_synonyms_repl_ok p hp
  rw [Bool.and_eq_true] at hb
  refine ⟨by simpa using hb.1, ?_⟩
  intro c hc
  have := List.all_eq_true.mp hb.2 c hc
  simpa using this

lemma expand_variants_parts (nq qc : Str) (hnq : strippedStr nq) :
    ∀ v ∈ ((if priority_words_of nq ≠ [] then
        if focused_query_of nq ≠ nq then [focused_query_of nq] else []
      else []) ++
      (if nq ≠ [] ∧ nq ≠ qc then [nq] else [])), strippedStr v := by
  intro v hv
  rw [List.mem_append] at hv
  rcases hv with hv | hv
  · by_cases hp : priority_words_of nq ≠ []
    · rw [if_pos hp] at hv
      by_cases hf : focused_query_of nq ≠ nq
      · rw [if_pos hf] at hv
        rcases List.mem_singleton.mp hv with rfl
        unfold focused_query_of
        refine (joinSp_stripped _ ?_ ?_).2
        · intro h0
          rcases List.append_eq_nil.mp h0 with ⟨h1, _⟩
          exact hp h1
        · intro w hw
          rcases List.mem_append.mp hw with h | h
          · exact splitWs_words _ w (List.mem_of_mem_filter h)
          · exact splitWs_words _ w (List.mem_of_mem_filter h)
      · rw [if_neg hf] at hv
        simp at hv
    · rw [if_neg hp] at hv
      simp at hv
  · by_cases hn : nq ≠ [] ∧ nq ≠ qc
    · rw [if_pos hn] at hv
      rcases List.mem_singleton.mp hv with rfl
      exact hnq
    · rw [if_neg hn] at hv
      simp at hv

lemma expand_variants_stripped (q : Str) :
    ∀ v ∈ expand_variants q, strippedStr v := by
  intro v hv
  unfold expand_variants at hv
  exact expand_variants_parts (normalized_query_of q) q
    (normalized_query_stripped q) v hv

lemma expand_dedup_distinct :
    ∀ (l seen : List Str), (∀ v ∈ l, pyStrip v = v) →
    (expand_dedup l seen).Pairwise (fun a b => a ≠ b) ∧
    ∀ x ∈ expand_dedup l seen, x ∈ l ∧ x ∉ seen := by
  intro l
  induction l with
  | nil =>
    intro seen _
    refine ⟨by simp [expand_dedup], ?_⟩
    intro x hx
    simp [expand_dedup] at hx
  | cons q rest ih =>
    intro seen hstrip
    have hq : pyStrip q = q := hstrip q (by simp)
    have hrest : ∀ v ∈ rest, pyStrip v = v :=
      fun v hv => hstrip v (List.mem_cons_of_mem q hv)
    unfold expand_dedup
    by_cases hk : q ≠ [] ∧ q ∉ seen ∧ 1 < (pyStrip q).length
    · rw [if_pos hk, hq]
      obtain ⟨ihp, ihm⟩ := ih (q :: seen) hrest
      constructor
      · refine List.pairwise_cons.mpr ⟨?_, ihp⟩
        intro x hx
        have := (ihm x hx).2
        intro hxq
        exact this (by rw [← hxq]; simp)
      · intro x hx
        rcases List.mem_cons.mp hx with rfl | hx
        · exact ⟨by simp, hk.2.1⟩
        · obtain ⟨h1, h2⟩ := ihm x hx
          exact ⟨List.mem_cons_of_mem q h1,
            fun hs => h2 (List.mem_cons_of_mem q hs)⟩
    · rw [if_neg hk]
      obtain ⟨ihp, ihm⟩ := ih seen hrest
      refine ⟨ihp, ?_⟩
      intro x hx
      obtain ⟨h1, h2⟩ := ihm x hx
      exact ⟨List.mem_cons_of_mem q h1, h2⟩

lemma expand_dedup_mem (c : Str) (hc : pyStrip c = c) (hlen : 1 < c.length)
    (hcne : c ≠ []) :
    ∀ (l seen : List Str), c ∈ l → c ∉ seen → c ∈ expand_dedup l seen := by
  intro l
  induction l with
  | nil => intro seen h _; exact absurd h (by simp)
  | cons q rest ih =>
    intro seen hin hseen
    unfold expand_dedup
    by_cases heq : q = c
    · subst heq
      rw [if_pos ⟨hcne, hseen, by rw [hc]; exact hlen⟩, hc]
      simp
    · rcases List.mem_cons.mp hin with h | h
      · exact absurd h.symm heq
      · by_cases hk : q ≠ [] ∧ q ∉ seen ∧ 1 < (pyStrip q).length
        · rw [if_pos hk]
          refine List.mem_cons_of_mem _ (ih (q :: seen) h ?_)
          intro hs
          rcases List.mem_cons.mp hs with h1 | h1
          · exact heq h1.symm
          · exact hseen h1
        · rw [if_neg hk]
          exact ih seen h hseen

lemma expand_dedup_getLast (c : Str) (hc : pyStrip c = c) (hlen : 1 < c.length)
    (hcne : c ≠ []) :
    ∀ (l seen : List Str), c ∉ l → c ∉ seen →
    (expand_dedup (l ++ [c]) seen).getLast? = some c := by
  intro l
  induction l with
  | nil =>
    intro seen _ hseen
    show (expand_dedup [c] seen).getLast? = some c
    unfold expand_dedup
    rw [if_pos ⟨hcne, hseen, by rw [hc]; exact hlen⟩, hc]
    rfl
  | cons q rest ih =>
    intro seen hin hseen
    have hqc : q ≠ c := fun h => hin (by rw [h]; simp)
    have hcrest : c ∉ rest := fun h => hin (List.mem_cons_of_mem q h)
    show (expand_dedup ((q :: (rest ++ [c]))) seen).getLast? = some c
    unfold expand_dedup
    by_cases hk : q ≠ [] ∧ q ∉ seen ∧ 1 < (pyStrip q).length
    · rw [if_pos hk]
      have hrec := ih (q :: seen) hcrest (by
        intro hs
        rcases List.mem_cons.mp hs with h1 | h1
        · exact hqc h1.symm
        · exact hseen h1)
      have hne : expand_dedup (rest ++ [c]) (q :: seen) ≠ [] := by
        intro h0
        rw [h0] at hrec
        simp at hrec
      rw [getLast_cons_ne_nil hne]
      exact hrec
    · rw [if_neg hk]
      exact ih seen hcrest hseen

lemma expander_core (vs : List Str) (c q : Str)
    (hvs : ∀ v ∈ vs, pyStrip v = v) (hc : pyStrip c = c)
    (hlen : 1 < c.length) (hcne : c ≠ []) :
    (if expand_dedup (vs ++ [c]) [] ≠ []
      then expand_dedup (vs ++ [c]) [] else [q]) ≠ [] ∧
    (if expand_dedup (vs ++ [c]) [] ≠ []
      then expand_dedup (vs ++ [c]) [] else [q]).Pairwise (fun a b => a ≠ b) ∧
    c ∈ (if expand_dedup (vs ++ [c]) [] ≠ []
      then expand_dedup (vs ++ [c]) [] else [q]) ∧
    (c ∉ vs →
      (if expand_dedup (vs ++ [c]) [] ≠ []
        then expand_dedup (vs ++ [c]) [] else [q]).getLast? = some c) := by
  have hall : ∀ v ∈ vs ++ [c], pyStrip v = v := by
    intro v hv
    rcases List.mem_append.mp hv with h | h
    · exact hvs v h
    · rcases List.mem_singleton.mp h with rfl
      exact hc
  have hmem : c ∈ expand_dedup (vs ++ [c]) [] :=
    expand_dedup_mem c hc hlen hcne (vs ++ [c]) [] (by simp) (by simp)
  have hne : expand_dedup (vs ++ [c]) [] ≠ [] := List.ne_nil_of_mem hmem
  rw [if_pos hne]
  refine ⟨hne, (expand_dedup_distinct (vs ++ [c]) [] hall).1, hmem, ?_⟩
  intro hnotin
  exact expand_dedup_getLast c hc hlen hcne vs [] hnotin (by simp)

/-- C6: the query expander always returns a non-empty de-duplicated list;
for short or empty queries it is the singleton of the raw query, and
otherwise it contains the stripped lower-cased query, which is moreover
its last element whenever it does not coincide with one of the derived
variants.  (The raw query itself is not in general the last element:
the expander appends its stripped lower-cased form instead.) -/
theorem C6_expander_output (q : Str) :
    expand_query_with_corrections q ≠ [] ∧
    (expand_query_with_corrections q).Pairwise (fun a b => a ≠ b) ∧
    ((q = [] ∨ (pyStrip q).length < 2) →
      expand_query_with_corrections q = [q]) ∧
    (¬ (q = [] ∨ (pyStrip q).length < 2) →
      pyLower (pyStrip q) ∈ expand_query_with_corrections q ∧
      (pyLower (pyStrip q) ∉ expand_variants (pyLower (pyStrip q)) →
        (expand_query_with_corrections q).getLast? =
          some (pyLower (pyStrip q)))) := by
  by_cases hg : q = [] ∨ (pyStrip q).length < 2
  · have hEq : expand_query_with_corrections q = [q] := by
      unfold expand_query_with_corrections
      rw [if_pos hg]
    rw [hEq]
    exact ⟨by simp, by simp, fun _ => rfl, fun h => absurd hg h⟩
  · have hEq : expand_query_with_corrections q =
        (if expand_dedup
            (expand_variants (pyLower (pyStrip q)) ++ [pyLower (pyStrip q)]) [] ≠ []
          then expand_dedup
            (expand_variants (pyLower (pyStrip q)) ++ [pyLower (pyStrip q)]) []
          else [q]) := by
      unfold expand_query_with_corrections
      rw [if_neg hg]
    have hcs : strippedStr (pyLower (pyStrip q)) := clean_stripped q
    have hc : pyStrip (pyLower (pyStrip q)) = pyLower (pyStrip q) :=
      pyStrip_eq_self hcs
    have hlq : (pyLower (pyStrip q)).length = (pyStrip q).length := by
      simp [pyLower]
    have hlen : 1 < (pyLower (pyStrip q)).length := by
      have h2 : ¬ (pyStrip q).length < 2 := fun h => hg (Or.inr h)
      omega
    have hcne : pyLower (pyStrip q) ≠ [] := by
      intro h0
      rw [h0] at hlen
      simp at hlen
    have hcore := expander_core (expand_variants (pyLower (pyStrip q)))
      (pyLower (pyStrip q)) q
      (fun v hv => pyStrip_eq_self (expand_variants_stripped _ v hv))
      hc hlen hcne
    rw [hEq]
    exact ⟨hcore.1, hcore.2.1, fun h => absurd h hg,
      fun _ => ⟨hcore.2.2.1, hcore.2.2.2⟩⟩

/-- C6 counterexample to the original reading: for the raw query
"Томаты" the expander output ends in the stripped lower-cased form
"томаты", not in the raw query itself. -/
theorem C6_counterexample :
    (expand_query_with_corrections (str "Томаты")).getLast? ≠
        some (str "Томаты") ∧
      str "Томаты" ∉ expand_query_with_corrections (str "Томаты") := by
  decide

theorem C6_witness :
    pyLower (pyStrip (str "Томаты")) ∈
        expand_query_with_corrections (str "Томаты") ∧
      (expand_query_with_corrections (str "Томаты")).getLast? =
        some (pyLower (pyStrip (str "Томаты"))) := by
  have h := (C6_expander_output (str "Томаты")).2.2.2 (by decide)
  exact ⟨h.1, h.2 (by decide)⟩

/-! ## Relevance scoring (predictor.calculate_enhanced_relevance_score) -/

/-- SEMANTIC_THRESHOLD mirrors the module constant of predictor.py. -/
def SEMANTIC_THRESHOLD : ℚ := 0.45

/-- SCORE_THRESHOLD_BEST_MATCH mirrors the module constant of predictor.py. -/
def SCORE_THRESHOLD_BEST_MATCH : ℚ := 0.55

/-- SCORE_THRESHOLD_TOP_SIMILAR mirrors the module constant of predictor.py. -/
def SCORE_THRESHOLD_TOP_SIMILAR : ℚ := 0.3

/-- MIN_RELEVANCE_FOR_ANY_MATCH mirrors the module constant of predictor.py. -/
def MIN_RELEVANCE_FOR_ANY_MATCH : ℚ := 0.10

/-- TOP_K_BEST_MATCH_SIMILAR mirrors the module constant of predictor.py. -/
def TOP_K_BEST_MATCH_SIMILAR : Nat := 4

/-- TOP_K_NOT_FOUND_SUGGESTIONS mirrors the module constant of predictor.py. -/
def TOP_K_NOT_FOUND_SUGGESTIONS : Nat := 6

def food_keywords : List Str := [
  str "виноград", str "изюм", str "орех", str "арахис", str "нут",
  str "сушен", str "свеж", str "фрукт", str "овощ", str "ягод"
]

def meat_keywords : List Str := [
  str "мясо", str "свин", str "говяд", str "птиц", str "жир",
  str "сало", str "бекон"
]

def vegetable_keywords : List Str := [
  str "томат", str "помидор", str "картофел", str "капуст", str "лук",
  str "морков", str "огурц", str "свекл", str "овощ"
]

def fruit_keywords : List Str := [
  str "виноград", str "изюм", str "яблок", str "груш", str "банан",
  str "апельсин", str "лимон", str "мандарин", str "фрукт"
]

def metal_keywords : List Str := [
  str "метал", str "стал", str "профил", str "железо", str "алюмин",
  str "оцинков", str "гипсокартон", str "строительный", str "конструкци", str "балка",
  str "уголок", str "швеллер", str "арматур"
]

def construction_keywords : List Str := [
  str "гипсокартон", str "строительный", str "строительн", str "конструкци", str "каркас",
  str "монтаж", str "профиль", str "профили"
]

def textile_keywords : List Str := [
  str "ткан", str "хлопок", str "шерст", str "син", str "волокн",
  str "пряж"
]

def food_codes : List Str := [
  str "08", str "07", str "04", str "12", str "15",
  str "16", str "17", str "18", str "19", str "20",
  str "21", str "22", str "23", str "24"
]

def vegetable_codes : List Str := [
  str "07"
]

def fruit_codes : List Str := [
  str "08"
]

def meat_codes : List Str := [
  str "02", str "03", str "16"
]

def metal_codes : List Str := [
  str "72", str "73", str "74", str "75", str "76",
  str "78", str "79", str "80", str "81"
]

def construction_codes : List Str := [
  str "72", str "73"
]

def textile_codes : List Str := [
  str "50", str "51", str "52", str "53", str "54",
  str "55", str "56", str "57", str "58", str "59",
  str "60", str "61", str "62", str "63"
]

def product_terms : List Str := [
  str "апельсин", str "арахис", str "арбуз", str "банан",
  str "виноград", str "груш", str "дын", str "изюм",
  str "капуст", str "картофел", str "корнишон", str "лимон",
  str "лук", str "мандарин", str "морков", str "огурец",
  str "орех", str "помидор", str "свекл", str "томат",
  str "яблок"
]

/-- startsWithAny models any(code_prefix.startswith(p) for p in l). -/
def startsWithAny (pfx : Str) (l : List Str) : Bool :=
  l.any (fun p => startsWith p pfx)

/-- category_boost_penalty is the category boost / category penalty block
of calculate_enhanced_relevance_score (predictor.py lines 285 to 436),
threaded in source order: the main if/elif chain, the combined
construction/metal override, the grape/raisin, tomato, cucumber and
plasterboard specific fixes, and the final additional penalties.
Returns (category_boost, category_penalty). -/
def category_boost_penalty (query_lower : Str) ( product_code : Str) : ℚ × ℚ :=
  let codePfx := product_code.take 4
  let is_food_query := food_keywords.any (fun k => isSub k query_lower)
  let is_meat_query := meat_keywords.any (fun k => isSub k query_lower)
  let is_vegetable_query := vegetable_keywords.any (fun k => isSub k query_lower)
  let is_fruit_query := fruit_keywords.any (fun k => isSub k query_lower)
  let is_metal_query := metal_keywords.any (fun k => isSub k query_lower)
  let is_construction_query := construction_keywords.any (fun k => isSub k query_lower)
  let is_textile_query := textile_keywords.any (fun k => isSub k query_lower)
  let p1 : ℚ × ℚ :=
    if is_vegetable_query then
      if startsWithAny codePfx vegetable_codes then (0.4, 0)
      else if startsWithAny codePfx fruit_codes then (0, 0.6)
      else if startsWithAny codePfx meat_codes then (0, 0.7)
      else (0, 0)
    else if is_fruit_query then
      if startsWithAny codePfx fruit_codes then (0.4, 0)
      else if startsWithAny codePfx vegetable_codes then (0, 0.3)
      else if startsWithAny codePfx meat_codes then (0, 0.7)
      else (0, 0)
    else if is_food_query ∧ ¬ is_meat_query = true then
      if startsWithAny codePfx food_codes then (0.3, 0)
      else if startsWithAny codePfx meat_codes then (0, 0.6)
      else (0, 0)
    else if is_meat_query then
      if startsWithAny codePfx meat_codes then (0.25, 0)
      else if startsWithAny codePfx food_codes then (0.1, 0)
      else (0, 0)
    else if is_metal_query then
      if startsWithAny codePfx metal_codes then (0.25, 0) else (0, 0.3)
    else if is_construction_query then
      if startsWithAny codePfx construction_codes then (0.25, 0) else (0, 0.3)
    else if is_textile_query then
      if startsWithAny codePfx textile_codes then (0.25, 0) else (0, 0.3)
    else (0, 0)
  let p2 : ℚ × ℚ :=
    if is_construction_query ∨ (is_metal_query ∧
        ([str "профил", str "гипсокартон", str "строительн"].any
          (fun w => isSub w query_lower)) = true) then
      if startsWithAny codePfx construction_codes then (max p1.1 0.4, p1.2)
      else if startsWithAny codePfx metal_codes then (max p1.1 0.2, p1.2)
      else (p1.1, max p1.2 0.5)
    else p1
  let p3 : ℚ × ℚ :=
    if isSub (str "виноград") query_lower ∨ isSub (str "изюм") query_lower then
      if startsWith (str "08") codePfx then (0.4, p2.2)
      else if startsWith (str "02") codePfx then (p2.1, 0.8)
      else p2
    else p2
  let p4 : ℚ × ℚ :=
    if isSub (str "томат") query_lower ∨ isSub (str "помидор") query_lower then
      if startsWith (str "0702") codePfx then (0.5, p3.2)
      else if startsWith (str "0707") codePfx then (p3.1, 0.5)
      else if startsWith (str "07") codePfx then (0.1, p3.2)
      else if startsWith (str "08") codePfx then (p3.1, 0.7)
      else if startsWith (str "02") codePfx then (p3.1, 0.8)
      else p3
    else p3
  let p5 : ℚ × ℚ :=
    if isSub (str "огурец") query_lower ∨ isSub (str "корнишон") query_lower then
      if startsWith (str "0707") codePfx then (0.5, p4.2)
      else if startsWith (str "0702") codePfx then (p4.1, 0.5)
      else if startsWith (str "07") codePfx then (0.1, p4.2)
      else p4
    else p4
  let p6 : ℚ × ℚ :=
    if isSub (str "гипсокартон") query_lower ∨
        (isSub (str "профил") query_lower ∧ (isSub (str "оцинков") query_lower) = true) then
      if startsWith (str "72") codePfx ∨ (startsWith (str "73") codePfx) = true then
        (max p5.1 0.5, p5.2)
      else if startsWith (str "07") codePfx then (p5.1, max p5.2 0.8)
      else if startsWith (str "08") codePfx then (p5.1, max p5.2 0.8)
      else p5
    else p5
  let cp7 : ℚ :=
    if ([str "виноград", str "изюм", str "фрукт", str "ягод", str "орех"].any
        (fun w => isSub w query_lower)) ∧ (startsWith (str "02") codePfx) = true then
      max p6.2 0.7
    else p6.2
  let cp8 : ℚ :=
    if [str "томат", str "помидор", str "картофел", str "капуст", str "овощ"].any
        (fun w => isSub w query_lower) then
      if startsWith (str "08") codePfx then max cp7 0.6
      else if startsWith (str "02") codePfx then max cp7 0.8
      else cp7
    else cp7
  (p6.1, cp8)

/-- calculate_enhanced_relevance_score models
predictor.calculate_enhanced_relevance_score. The fuzzywuzzy metrics
(fuzz.ratio, fuzz.partial_ratio, fuzz.token_sort_ratio,
fuzz.token_set_ratio, each on the 0..100 scale) are the external oracle
fz; everything else is translated from the source. -/
def calculate_enhanced_relevance_score
    (fz : Str → Str → ℚ × ℚ × ℚ × ℚ)
    (query_norm query_lemmas_joined desc_norm desc_lemmas_joined : Str)
    (semantic_similarity : ℚ) (query_length desc_length : Nat)
    ( product_code : Str) : ℚ :=
  let query_lower := pyLower query_norm
  let bp := category_boost_penalty query_lower product_code
  let ws : ℚ × ℚ × ℚ :=
    if query_length ≤ 2 then (0.60, 0.25, 0.15)
    else if query_length ≤ 4 then (0.70, 0.15, 0.15)
    else (0.75, 0.10, 0.15)
  let f := fz query_norm desc_norm
  let best_fuzzy := max (max (f.1 / 100) (f.2.1 / 100)) (max (f.2.2.1 / 100) (f.2.2.2 / 100))
  let query_lemmas_set := (splitWs query_lemmas_joined).dedup
  let desc_lemmas_set := (splitWs desc_lemmas_joined).dedup
  let overlap := query_lemmas_set.filter (fun w => w ∈ desc_lemmas_set)
  let product_overlap := overlap.filter (fun w => w ∈ product_terms)
  let descriptor_overlap := overlap.filter (fun w => w ∉ product_terms)
  let query_product_terms := query_lemmas_set.filter (fun w => w ∈ product_terms)
  let word_overlap_score : ℚ :=
    if query_product_terms ≠ [] then
      if product_overlap = [] then 0
      else
        (product_overlap.length : ℚ) / (query_product_terms.length : ℚ) * 0.8 +
        (descriptor_overlap.length : ℚ) /
          ((max (query_lemmas_set.filter (fun w => w ∉ product_terms)).length 1 : Nat) : ℚ) * 0.2
    else (overlap.length : ℚ) / ((max query_lemmas_set.length 1 : Nat) : ℚ)
  let phrase_bonus : ℚ :=
    if 3 < query_lemmas_joined.length ∧ (isSub query_lemmas_joined desc_lemmas_joined) = true
    then 0.2 else 0
  let query_words := splitWs query_lemmas_joined
  let desc_words := splitWs desc_lemmas_joined
  let position_bonus : ℚ :=
    if query_words ≠ [] ∧ desc_words ≠ [] then
      (query_words.take 3).enum.foldl
        (fun acc p =>
          if p.2 ∈ desc_words.take 5 then acc + 0.1 * (1 - (p.1 : ℚ) * 0.2) else acc) 0
    else 0
  let length_penalty : ℚ :=
    if 100 < desc_length then min 0.1 (((desc_length : ℚ) - 100) / 500) else 0
  let combined_score :=
    max 0 semantic_similarity * ws.1 + best_fuzzy * ws.2.1 +
      (word_overlap_score + phrase_bonus + position_bonus) * ws.2.2
  let combined2 := combined_score + bp.1
  let penalty0 := length_penalty + bp.2
  let penalty1 :=
    if semantic_similarity < SEMANTIC_THRESHOLD - 0.35 then penalty0 + 0.25 else penalty0
  let penalty2 :=
    if 1 < query_lemmas_set.length then
      let ratio :=
        ((query_lemmas_set.filter (fun w => w ∉ desc_lemmas_set)).length : ℚ) /
          (query_lemmas_set.length : ℚ)
      if 0.5 < ratio then penalty1 + ratio * 0.2 else penalty1
    else penalty1
  max 0 (min (combined2 - penalty2) 1)

-- Sanity checks against hand-traced Python runs of the scorer.
example :
    category_boost_penalty (str "виноград") (str "0806200000") = (0.4, 0) := by
  have h1 : List.take 4 (str "0806200000") = str "0806" := by decide
  have hfl : (food_keywords.any (fun k => isSub k (str "виноград")) = true) ∧
      (meat_keywords.any (fun k => isSub k (str "виноград")) = false) ∧
      (vegetable_keywords.any (fun k => isSub k (str "виноград")) = false) ∧
      (fruit_keywords.any (fun k => isSub k (str "виноград")) = true) ∧
      (metal_keywords.any (fun k => isSub k (str "виноград")) = false) ∧
      (construction_keywords.any (fun k => isSub k (str "виноград")) = false) ∧
      (textile_keywords.any (fun k => isSub k (str "виноград")) = false) := by decide
  have hsub : (isSub (str "виноград") (str "виноград") = true) ∧
      (isSub (str "томат") (str "виноград") = false) ∧
      (isSub (str "помидор") (str "виноград") = false) ∧
      (isSub (str "огурец") (str "виноград") = false) ∧
      (isSub (str "корнишон") (str "виноград") = false) ∧
      (isSub (str "гипсокартон") (str "виноград") = false) ∧
      (isSub (str "профил") (str "виноград") = false) := by decide
  have hsw : (startsWithAny (str "0806") fruit_codes = true) ∧
      (startsWith (str "08") (str "0806") = true) ∧
      (startsWith (str "02") (str "0806") = false) ∧
      ([str "виноград", str "изюм", str "фрукт", str "ягод", str "орех"].any
        (fun w => isSub w (str "виноград")) = true) ∧
      ([str "томат", str "помидор", str "картофел", str "капуст", str "овощ"].any
        (fun w => isSub w (str "виноград")) = false) := by decide
  obtain ⟨f1, f2, f3, f4, f5, f6, f7⟩ := hfl
  obtain ⟨s1, s2, s3, s4, s5, s6, s7⟩ := hsub
  obtain ⟨w1, w2, w3, w4, w5⟩ := hsw
  simp [category_boost_penalty, h1, f1, f2, f3, f4, f5, f6, f7,
    s1, s2, s3, s4, s5, s6, s7, w1, w2, w3, w4, w5]

example :
    category_boost_penalty (str "виноград") (str "0203000000") = (0, 0.8) := by
  have h1 : List.take 4 (str "0203000000") = str "0203" := by decide
  have hfl : (vegetable_keywords.any (fun k => isSub k (str "виноград")) = false) ∧
      (fruit_keywords.any (fun k => isSub k (str "виноград")) = true) ∧
      (metal_keywords.any (fun k => isSub k (str "виноград")) = false) ∧
      (construction_keywords.any (fun k => isSub k (str "виноград")) = false) := by decide
  have hsub : (isSub (str "виноград") (str "виноград") = true) ∧
      (isSub (str "томат") (str "виноград") = false) ∧
      (isSub (str "помидор") (str "виноград") = false) ∧
      (isSub (str "огурец") (str "виноград") = false) ∧
      (isSub (str "корнишон") (str "виноград") = false) ∧
      (isSub (str "гипсокартон") (str "виноград") = false) ∧
      (isSub (str "профил") (str "виноград") = false) := by decide
  have hsw : (startsWithAny (str "0203") fruit_codes = false) ∧
      (startsWithAny (str "0203") vegetable_codes = false) ∧
      (startsWithAny (str "0203") meat_codes = true) ∧
      (startsWith (str "08") (str "0203") = false) ∧
      (startsWith (str "02") (str "0203") = true) ∧
      ([str "виноград", str "изюм", str "фрукт", str "ягод", str "орех"].any
        (fun w => isSub w (str "виноград")) = true) ∧
      ([str "томат", str "помидор", str "картофел", str "капуст", str "овощ"].any
        (fun w => isSub w (str "виноград")) = false) := by decide
  obtain ⟨f3, f4, f5, f6⟩ := hfl
  obtain ⟨s1, s2, s3, s4, s5, s6, s7⟩ := hsub
  obtain ⟨w1, w2, w3, w4, w5, w6, w7⟩ := hsw
  simp [category_boost_penalty, h1, f3, f4, f5, f6,
    s1, s2, s3, s4, s5, s6, s7, w1, w2, w3, w4, w5, w6, w7]
  norm_num

/-! ## Category filter (src/utils/category_filter.py) -/

structure CategoryConfig where
  name : Str
  keywords : List Str
  tnved_codes : List Str
  exclude_codes : List Str
  description_must_contain : List Str
deriving DecidableEq

def product_categories : List CategoryConfig := [
  { name := str "glass",
    keywords := [str "стекло", str "стеклянн", str "glass", str "стекол", str "стекла", str "листовое", str "полированное", str "окрашенное", str "толщиной"],
    tnved_codes := [str "70"],
    exclude_codes := [str "39", str "72", str "73", str "76", str "78", str "79", str "80", str "81", str "82", str "83"],
    description_must_contain := [str "стекло", str "glass", str "стеклянн"] },
  { name := str "metal",
    keywords := [str "метал", str "сталь", str "железо", str "профиль", str "metal", str "steel", str "iron"],
    tnved_codes := [str "72", str "73", str "76", str "78", str "79", str "80", str "81", str "82", str "83"],
    exclude_codes := [str "39", str "70"],
    description_must_contain := [str "метал", str "сталь", str "железо", str "metal", str "steel", str "iron"] },
  { name := str "plastic",
    keywords := [str "пластик", str "полимер", str "полиэтилен", str "полипропилен", str "пластмасс", str "полиамид", str "пвх"],
    tnved_codes := [str "39"],
    exclude_codes := [str "70", str "72", str "73"],
    description_must_contain := [str "пластик", str "полимер", str "полиэтилен", str "полипропилен", str "пластмасс", str "полиамид", str "пвх"] },
  { name := str "textile",
    keywords := [str "ткань", str "текстиль", str "хлопок", str "шерсть", str "fabric", str "textile"],
    tnved_codes := [str "50", str "51", str "52", str "53", str "54", str "55", str "56", str "57", str "58", str "59", str "60", str "61", str "62", str "63"],
    exclude_codes := [str "39", str "70", str "72", str "73"],
    description_must_contain := [str "ткань", str "текстиль", str "хлопок", str "шерсть", str "fabric", str "textile"] },
  { name := str "wood",
    keywords := [str "дерев", str "древес", str "фанера", str "wood", str "timber", str "lumber"],
    tnved_codes := [str "44"],
    exclude_codes := [str "39", str "70", str "72", str "73"],
    description_must_contain := [str "дерев", str "древес", str "фанера", str "wood", str "timber", str "lumber"] },
  { name := str "food",
    keywords := [str "пищев", str "продукт", str "еда", str "food", str "edible"],
    tnved_codes := [str "01", str "02", str "03", str "04", str "05", str "06", str "07", str "08", str "09", str "10", str "11", str "12", str "13", str "14", str "15", str "16", str "17", str "18", str "19", str "20", str "21", str "22", str "23", str "24"],
    exclude_codes := [str "39", str "70", str "72", str "73"],
    description_must_contain := [str "пищев", str "продукт", str "еда", str "food", str "edible"] }
]

/-- RCand models the result dicts passed through
filter_results_by_category (keys code and description). -/
structure RCand where
  code : Str
  description : Str
deriving DecidableEq

/-- detect_query_category models category_filter.detect_query_category:
the first configured category (in PRODUCT_CATEGORIES order) one of whose
keywords occurs in the lower-cased query, none otherwise. -/
def detect_query_category (query : Str) : Option CategoryConfig :=
  let query_lower := pyLower query
  List.find? (fun cfg => cfg.keywords.any (fun k => isSub k query_lower))
    product_categories

/-- category_pass is the strict acceptance test of
filter_results_by_category: allowed code prefix, no excluded code prefix,
and a required description keyword present. -/
def category_pass (cfg : CategoryConfig) (r : RCand) : Bool :=
  let code := r.code
  let description := pyLower r.description
  let code_allowed := cfg.tnved_codes.any (fun p => startsWith p code)
  let code_excluded := cfg.exclude_codes.any (fun p => startsWith p code)
  let desc_valid := cfg.description_must_contain.any (fun k => isSub k description)
  code_allowed ∧ (¬ code_excluded = true) ∧ desc_valid = true

/-- relaxed_should_exclude is the relaxed-pass rejection test: only
glass and metal queries exclude anything, as in the source. -/
def relaxed_should_exclude (catName : Str) (r : RCand) : Bool :=
  let code := r.code
  let description := pyLower r.description
  if catName = str "glass" then
    (startsWith (str "39") code ∧
      (isSub (str "полимер") description ∨ isSub (str "пластик") description ∨
        isSub (str "полиамид") description ∨ isSub (str "силикон") description) = true) ∨
    (startsWith (str "47") code ∧ (isSub (str "древес") description) = true) ∨
    (startsWith (str "48") code ∧ (isSub (str "бумаг") description) = true) ∨
    (startsWith (str "25") code ∧ (isSub (str "графит") description) = true)
  else if catName = str "metal" then
    (startsWith (str "39") code ∧
      (isSub (str "полимер") description ∨ isSub (str "пластик") description) = true) ∨
    startsWith (str "47") code ∨ startsWith (str "48") code
  else false

/-- relaxed_loop is the relaxed fallback loop of
filter_results_by_category: keep non-excluded rejected results, stopping
once five results are collected. -/
def relaxed_loop (catName : Str) : List RCand → List RCand → List RCand
  | [], acc => acc
  | r :: rest, acc =>
    let acc2 := if relaxed_should_exclude catName r then acc else acc ++ [r]
    if 5 ≤ acc2.length then acc2 else relaxed_loop catName rest acc2

/-- filter_results_by_category models
category_filter.filter_results_by_category: the strict pass, then the
relaxed pass when the strict pass removes everything, then the top-3
original results as last resort. -/
def filter_results_by_category (results : List RCand) (query : Str) : List RCand :=
  if results = [] then results
  else
    match detect_query_category query with
    | none => results
    | some cfg =>
      let filtered_results := results.filter (fun r => category_pass cfg r)
      let rejected_results := results.filter (fun r => ¬ (category_pass cfg r) = true)
      if filtered_results = [] ∧ rejected_results ≠ [] then
        let relaxed := relaxed_loop cfg.name rejected_results []
        if relaxed ≠ [] then relaxed else results.take 3
      else filtered_results

-- Sanity: a glass query keeps chapter-70 codes and drops plastic.
example :
    filter_results_by_category
      [⟨str "3901000000", str "Полимеры этилена"⟩,
       ⟨str "7005000000", str "Стекло листовое"⟩]
      (str "стекло") = [⟨str "7005000000", str "Стекло листовое"⟩] := by decide

-- Sanity: strict pass empty, non-glass category: relaxed pass rescues all.
example :
    filter_results_by_category
      [⟨str "8413000000", str "Насосы"⟩] (str "ткань хлопок") =
      [⟨str "8413000000", str "Насосы"⟩] := by decide

/-! ## Claim C4 -/

/-- C4: for every non-empty candidate list and every query for which a
category is detected, filter_results_by_category returns a non-empty
list: the strict pass, the relaxed pass, and the top-3 fallback never
jointly produce an empty result from a non-empty input. -/
theorem C4_category_filter_never_empties (results : List RCand) (query : Str)
    (hne : results ≠ []) (hdet : (detect_query_category query).isSome = true) :
    filter_results_by_category results query ≠ [] := by
  obtain ⟨cfg, hcfg⟩ := Option.isSome_iff_exists.mp hdet
  simp only [filter_results_by_category, hcfg, if_neg hne]
  by_cases hf : results.filter (fun r => category_pass cfg r) = []
  · have hrej : results.filter (fun r => ¬ (category_pass cfg r) = true) = results := by
      rw [List.filter_eq_self]
      intro a ha
      have := (List.filter_eq_nil_iff.mp hf) a ha
      simpa using this
    rw [hrej]
    rw [if_pos ⟨hf, hne⟩]
    by_cases hr : relaxed_loop cfg.name results [] = []
    · rw [if_neg (by simp [hr])]
      simp [List.take_eq_nil_iff, hne]
    · rw [if_pos hr]
      exact hr
  · rw [if_neg (by
      intro hcon
      exact hf hcon.1)]
    exact hf

/-- C4 witness: a concrete glass query with a single chapter-70 result
passes the filter with a non-empty output. -/
theorem C4_witness :
    filter_results_by_category [⟨str "7005000000", str "Стекло листовое"⟩]
      (str "стекло") ≠ [] :=
  C4_category_filter_never_empties _ _ (by decide) (by decide)

/-! ## Claim C7 -/

/-- startsWith_iff_append characterises the startsWith test: the subject
splits as the pattern followed by a remainder. -/
theorem startsWith_iff_append (p s : Str) :
    startsWith p s = true ↔ ∃ u, s = p ++ u := by
  induction p generalizing s with
  | nil => simp [startsWith]
  | cons a ps ih =>
    cases s with
    | nil => simp [startsWith]
    | cons b ss =>
      simp only [startsWith, Bool.and_eq_true, beq_iff_eq, ih, List.cons_append,
        List.cons.injEq]
      aesop

/-- C7: for every query containing a confusable produce term (томат,
помидор, виноград or изюм) and every candidate code in the meat chapter
(prefix 02), category_boost_penalty applies the specific override
penalty 0.8, strictly greater than the generic penalties: 0.7 (what the
generic vegetable or fruit versus meat rule yields, exhibited by the
plain vegetable query морковь) and 0.6 (the generic non-meat food versus
meat rule, exhibited by the plain food query нут). -/
theorem C7_specific_override_beats_generic (query_lower pc : Str)
    (hterm : isSub (str "томат") query_lower = true ∨
      isSub (str "помидор") query_lower = true ∨
      isSub (str "виноград") query_lower = true ∨
      isSub (str "изюм") query_lower = true)
    (hpfx : startsWith (str "02") pc = true) :
    (category_boost_penalty query_lower pc).2 = 0.8 ∧
    (category_boost_penalty (str "морковь") pc).2 = 0.7 ∧
    (category_boost_penalty (str "нут") pc).2 = 0.6 ∧
    (0.7 : ℚ) < 0.8 ∧ (0.6 : ℚ) < 0.8 := by
  obtain ⟨t, ht⟩ := (startsWith_iff_append _ _).mp hpfx
  have hpc : pc = '0' :: '2' :: t := ht
  subst hpc
  refine ⟨?_, by rfl, by rfl, by norm_num, by norm_num⟩
  have e02 : (startsWith (str "02") ('0' :: '2' :: List.take 2 t)) = true := rfl
  have e0702 : (startsWith (str "0702") ('0' :: '2' :: List.take 2 t)) = false := rfl
  have e0707 : (startsWith (str "0707") ('0' :: '2' :: List.take 2 t)) = false := rfl
  have e07 : (startsWith (str "07") ('0' :: '2' :: List.take 2 t)) = false := rfl
  have e08 : (startsWith (str "08") ('0' :: '2' :: List.take 2 t)) = false := rfl
  have e72 : (startsWith (str "72") ('0' :: '2' :: List.take 2 t)) = false := rfl
  have e73 : (startsWith (str "73") ('0' :: '2' :: List.take 2 t)) = false := rfl
  have eswv : startsWithAny ('0' :: '2' :: List.take 2 t) vegetable_codes = false := rfl
  have eswf : startsWithAny ('0' :: '2' :: List.take 2 t) fruit_codes = false := rfl
  have eswm : startsWithAny ('0' :: '2' :: List.take 2 t) meat_codes = true := rfl
  have eswfo : startsWithAny ('0' :: '2' :: List.take 2 t) food_codes = false := rfl
  have eswme : startsWithAny ('0' :: '2' :: List.take 2 t) metal_codes = false := rfl
  have eswc : startsWithAny ('0' :: '2' :: List.take 2 t) construction_codes = false := rfl
  have eswt : startsWithAny ('0' :: '2' :: List.take 2 t) textile_codes = false := rfl
  have emax1 : max (0.8 : ℚ) 0.7 = 0.8 := by norm_num
  have emax2 : max (0.8 : ℚ) 0.8 = 0.8 := by norm_num
  rcases hterm with hv | hv | hv | hv <;>
    simp [category_boost_penalty, hv, e02, e0702, e0707, e07, e08, e72, e73,
      eswv, eswf, eswm, eswfo, eswme, eswc, eswt, emax1, emax2]

/-- C7 witness: the concrete query помидоры свежие against code
0201000000 instantiates the override-beats-generic ordering. -/
theorem C7_witness :
    (category_boost_penalty (str "помидоры свежие") (str "0201000000")).2 = 0.8 ∧
    (category_boost_penalty (str "морковь") (str "0201000000")).2 = 0.7 ∧
    (category_boost_penalty (str "нут") (str "0201000000")).2 = 0.6 ∧
    (0.7 : ℚ) < 0.8 ∧ (0.6 : ℚ) < 0.8 :=
  C7_specific_override_beats_generic (str "помидоры свежие") (str "0201000000")
    (Or.inr (Or.inl (by decide))) (by decide)

/-! ## Search pipeline data model (predictor.EnhancedProductSearchSystem) -/

/-- Entry models one row of index_to_data: the catalogue code and
description plus the normalised and lemmatised descriptions computed at
index-build time. -/
structure Entry where
  code : Str
  description : Str
  normalized_description : Str
  lemmatized_description : Str
deriving DecidableEq

/-- Env holds the read-only search state: the initialized flag, the
loaded catalogue, and the external oracles (NLTK lemmatizer, sklearn
TF-IDF search, FAISS semantic search, fuzzywuzzy metrics on the 0..100
scale, and the database lookup quick_code_lookup returning the stored
description). -/
structure Env where
  initialized : Bool
  entries : List Entry
  lemmatize : Str → Str
  tfidf : Str → List (Nat × ℚ)
  semantic : Str → List (Nat × ℚ)
  fuzz : Str → Str → ℚ × ℚ × ℚ × ℚ
  dbLookup : Str → Option Str

/-- Candidate models one result dict of enhanced_predict_code (keys
code, description, relevance_score, match_type or search_type,
validated: absent keys modelled by the default false). -/
structure Candidate where
  code : Str
  description : Str
  relevance_score : ℚ
  search_type : Str
  validated : Bool := false
deriving DecidableEq

/-- Response models the result dict returned by enhanced_predict_code
(wall-clock fields such as processing_time_ms are outside the model;
the absent from_cache key is modelled by the value false). -/
structure Response where
  status : Str
  message : Str
  best_match : Option Candidate
  top_similar : List Candidate
  confidence : ℚ
  from_cache : Bool
  total_candidates : Nat
deriving DecidableEq

/-! ## Result cache (predictor lines 205 to 263) -/

/-- cache_max_size mirrors _cache_max_size = 200. -/
def cache_max_size : Nat := 200

/-- CacheState is the mutable cache module state: the insertion-ordered
dict _search_cache and the _last_cache_cleanup timestamp (in seconds). -/
structure CacheState where
  entries : List (Str × Response)
  lastCleanup : Nat
deriving DecidableEq

/-- cache_key models _get_cache_key: md5 is modelled by the hashed text
itself, query:lang. -/
def cache_key (query lang : Str) : Str := query ++ (':' :: lang)

/-- lookupAssoc is Python dict lookup on an insertion-ordered
association list. -/
def lookupAssoc {α β : Type} [DecidableEq α] (l : List (α × β)) (k : α) : Option β :=
  (l.find? (fun p => p.1 = k)).map (fun p => p.2)

/-- insertAssoc is Python dict assignment: an existing key keeps its
position and gets the new value, a new key is appended at the end. -/
def insertAssoc {α β : Type} [DecidableEq α] (k : α) (v : β) :
    List (α × β) → List (α × β)
  | [] => [(k, v)]
  | p :: rest => if p.1 = k then (k, v) :: rest else p :: insertAssoc k v rest

/-- cleanup_memory_cache models predictor.cleanup_memory_cache: if more
than 900 seconds passed since the last cleanup, keep only the 50 most
recently inserted entries (when above 50) and stamp the cleanup time. -/
def cleanup_memory_cache (now : Nat) (st : CacheState) : CacheState :=
  if 900 < now - st.lastCleanup then
    { entries :=
        if 50 < st.entries.length then st.entries.drop (st.entries.length - 50)
        else st.entries,
      lastCleanup := now }
  else st

/-- get_cached_result models predictor.get_cached_result: run the
periodic cleanup, then look the key up. -/
def get_cached_result (now : Nat) (query lang : Str) (st : CacheState) :
    Option Response × CacheState :=
  let st2 := cleanup_memory_cache now st
  (lookupAssoc st2.entries (cache_key query lang), st2)

/-- cache_result models predictor.cache_result: when the cache is at
capacity drop the oldest-inserted entry, then store under the key. -/
def cache_result (query lang : Str) (result : Response) (st : CacheState) :
    CacheState :=
  let ent :=
    if cache_max_size ≤ st.entries.length then st.entries.drop 1 else st.entries
  { st with entries := insertAssoc (cache_key query lang) result ent }

/-! ## Pipeline stages (predictor.enhanced_predict_code and helpers) -/

/-- exact_match_search models
EnhancedProductSearchSystem._exact_match_search: an exact code hit for a
10-digit numeric query (score 1.0), then exact phrase hits in normalised
descriptions with a position-based score. -/
def exact_match_search (env : Env) (query : Str) : List Candidate :=
  let query_norm := pyLower (normalize_text query)
  let code_matches :=
    if pyIsDigit query ∧ query.length = 10 then
      (env.entries.filter (fun r => r.code = query)).map (fun r =>
        { code := r.code, description := r.description, relevance_score := 1,
          search_type := str "exact_code" })
    else []
  let phrase_matches := env.entries.filterMap (fun r =>
    let desc_norm := pyLower (normalize_text r.description)
    if isSub query_norm desc_norm then
      let position := (findSub query_norm desc_norm).getD 0
      let position_score : ℚ :=
        1 - ((position : ℚ) / ((max desc_norm.length 1 : Nat) : ℚ)) * 0.3
      some { code := r.code, description := r.description,
             relevance_score := min 1 (0.9 + position_score * 0.1),
             search_type := str "exact_phrase" }
    else none)
  code_matches ++ phrase_matches

/-- find_semantic_score is the inner scan for the semantic score of a
TF-IDF hit (first match wins, 0.0 when absent). -/
def find_semantic_score (semantic_results : List (Nat × ℚ)) (idx : Nat) : ℚ :=
  match semantic_results.find? (fun q => q.1 = idx) with
  | some q => q.2
  | none => 0

/-- hybrid_stage models stage 2 of enhanced_predict_code for one query
variant: score all TF-IDF hits (with the 1.1 hybrid boost above 0.3
semantic similarity and the 0.95 corrected-variant factor), then append
the semantic-only hits, keyed by catalogue index as in the source
candidate_matches dict. -/
def hybrid_stage (env : Env)
    (expanded_query query_clean query_norm query_lemmas_no_stop : Str) :
    List Candidate :=
  let tfidf_results := env.tfidf query_lemmas_no_stop
  let semantic_results := env.semantic query_lemmas_no_stop
  let query_length := (splitWs query_lemmas_no_stop).length
  let step1 := tfidf_results.foldl
    (fun (acc : List (Nat × Candidate)) pr =>
      match env.entries.get? pr.1 with
      | none => acc
      | some item =>
        let semantic_score := find_semantic_score semantic_results pr.1
        let rel := calculate_enhanced_relevance_score env.fuzz query_norm
          query_lemmas_no_stop item.normalized_description
          item.lemmatized_description semantic_score query_length
          item.description.length item.code
        let rel2 := if 0.3 < semantic_score then rel * 1.1 else rel
        let rel3 := if expanded_query ≠ query_clean then rel2 * 0.95 else rel2
        insertAssoc pr.1
          { code := item.code, description := item.description,
            relevance_score := rel3, search_type := str "hybrid" } acc)
    []
  let step2 := semantic_results.foldl
    (fun (acc : List (Nat × Candidate)) pr =>
      if (lookupAssoc acc pr.1).isSome then acc
      else
        match env.entries.get? pr.1 with
        | none => acc
        | some item =>
          let rel := calculate_enhanced_relevance_score env.fuzz query_norm
            query_lemmas_no_stop item.normalized_description
            item.lemmatized_description pr.2 query_length
            item.description.length item.code
          acc ++ [(pr.1,
            { code := item.code, description := item.description,
              relevance_score := rel, search_type := str "semantic" })])
    step1
  step2.map (fun q => q.2)

/-- all_candidates is the accumulation loop of enhanced_predict_code
over the expanded query variants: per variant, skip it unless it
contains a valid word, otherwise append the exact matches and the
hybrid-stage candidates. -/
def all_candidates (env : Env) (query_clean lang : Str) : List Candidate :=
  let expanded_queries := expand_query_with_corrections query_clean
  expanded_queries.foldl
    (fun acc eq =>
      let query_norm := normalize_text eq
      let query_lemmas_joined := env.lemmatize query_norm
      let query_lemmas_no_stop := remove_stopwords query_lemmas_joined lang
      if contains_valid_word query_norm then
        acc ++ exact_match_search env eq ++
          hybrid_stage env eq query_clean query_norm query_lemmas_no_stop
      else acc)
    []

/-- dedup_by_code_go is the seen-set worker for dedup_by_code. -/
def dedup_by_code_go (seen : List Str) : List Candidate → List Candidate
  | [] => []
  | r :: rest =>
    if r.code ∈ seen then dedup_by_code_go seen rest
    else r :: dedup_by_code_go (r.code :: seen) rest

/-- dedup_by_code models the deduplication loop of enhanced_predict_code
(lines 1100 to 1106): the first candidate of each code survives. -/
def dedup_by_code (l : List Candidate) : List Candidate := dedup_by_code_go [] l

/-- insertDesc inserts into a list sorted by descending relevance_score,
after all strictly greater scores and before equal ones. -/
def insertDesc (x : Candidate) : List Candidate → List Candidate
  | [] => [x]
  | h :: rest =>
    if x.relevance_score < h.relevance_score then h :: insertDesc x rest
    else x :: h :: rest

/-- sort_by_relevance models sorted(unique_results, key=relevance_score,
reverse=True): the unique stable descending sort. -/
def sort_by_relevance : List Candidate → List Candidate
  | [] => []
  | x :: rest => insertDesc x (sort_by_relevance rest)

/-- enrich_one models the per-result body of
_enrich_with_database_info: validate the code against the database and
reconcile the two descriptions by the length rules of the source. -/
def enrich_one (env : Env) (result : Candidate) : Candidate :=
  if result.code = [] then result
  else
    match env.dbLookup result.code with
    | some db_description =>
      let csv_description := result.description
      let newdesc :=
        if db_description.length * 2 < csv_description.length then csv_description
        else if db_description.length < 50 ∧ db_description.length < csv_description.length
        then csv_description
        else db_description
      { result with description := newdesc, validated := true }
    | none => { result with validated := false }

/-- enrich_with_database_info models _enrich_with_database_info: enrich
every result, then drop unvalidated ones unless none validated. -/
def enrich_with_database_info (env : Env) (results : List Candidate) :
    List Candidate :=
  let enriched := results.map (enrich_one env)
  let valid := enriched.filter (fun r => r.validated)
  if valid ≠ [] then valid else enriched

/-- similar_loop models the top-similar selection loops of
enhanced_predict_code: append items above the threshold whose code is
unseen, stopping once the cap is reached. -/
def similar_loop (threshold : ℚ) (cap : Nat) :
    List Candidate → List Str → List Candidate → List Candidate
  | [], _, acc => acc
  | item :: rest, seen, acc =>
    let keep := threshold ≤ item.relevance_score ∧ item.code ∉ seen
    let acc2 := if keep then acc ++ [item] else acc
    let seen2 := if keep then item.code :: seen else seen
    if cap ≤ acc2.length then acc2 else similar_loop threshold cap rest seen2 acc2

/-- cleanCand applies clean_description_for_output to a candidate. -/
def cleanCand (c : Candidate) : Candidate :=
  { c with description := clean_description_for_output c.description }

/-- build_response is the result-quality step of enhanced_predict_code
(lines 1117 to 1181): given the validated scored_matches it selects the
best match and the similar list and assigns the confidence band. -/
def build_response (scored_matches : List Candidate) : Response :=
  match scored_matches with
  | [] =>
    { status := str "not_found", message := str "No matches found",
      best_match := none, top_similar := [], confidence := 0,
      from_cache := false, total_candidates := 0 }
  | top :: rest =>
    let highest_score := top.relevance_score
    if SCORE_THRESHOLD_BEST_MATCH ≤ highest_score then
      let pair :=
        if (0.85 : ℚ) ≤ highest_score then
          (str "high_confidence", str "High confidence match found")
        else if (0.70 : ℚ) ≤ highest_score then
          (str "medium_confidence", str "Medium confidence match found")
        else (str "low_confidence", str "Low confidence match found")
      let top_similar :=
        similar_loop SCORE_THRESHOLD_TOP_SIMILAR TOP_K_BEST_MATCH_SIMILAR rest
          [top.code] []
      { status := pair.1, message := pair.2,
        best_match := some (cleanCand top),
        top_similar := top_similar.map cleanCand,
        confidence := highest_score, from_cache := false,
        total_candidates := (top :: rest).length }
    else if MIN_RELEVANCE_FOR_ANY_MATCH ≤ highest_score then
      let top_similar :=
        similar_loop MIN_RELEVANCE_FOR_ANY_MATCH TOP_K_NOT_FOUND_SUGGESTIONS
          (top :: rest) [] []
      { status := str "not_found_with_suggestions",
        message := str "No exact match, but here are some suggestions",
        best_match := none,
        top_similar := top_similar.map cleanCand,
        confidence := 0, from_cache := false,
        total_candidates := (top :: rest).length }
    else
      { status := str "not_found", message := str "No matches found",
        best_match := none, top_similar := [], confidence := 0,
        from_cache := false, total_candidates := (top :: rest).length }

/-- compute_response is the cache-miss body of enhanced_predict_code:
accumulate candidates over the variants, deduplicate by code, sort by
descending relevance, validate the top 20 against the database, and
build the response with the confidence bands of the source. -/
def compute_response (env : Env) (query_clean lang : Str) : Response :=
  let all_results := all_candidates env query_clean lang
  let unique_results := dedup_by_code all_results
  let sorted0 := sort_by_relevance unique_results
  let scored_matches :=
    if sorted0 ≠ [] then enrich_with_database_info env (sorted0.take 20) else sorted0
  build_response scored_matches

/-- enhanced_predict_code models
EnhancedProductSearchSystem.enhanced_predict_code as a function of the
environment, the current time, the query, the language and the cache
state, returning the response and the updated cache state. -/
def enhanced_predict_code (env : Env) (now : Nat) (query lang : Str)
    (st : CacheState) : Response × CacheState :=
  let c := get_cached_result now query lang st
  match c.1 with
  | some r => ({ r with from_cache := true }, c.2)
  | none =>
    if env.initialized = false then
      ({ status := str "system_error", message := str "System not initialized",
         best_match := none, top_similar := [], confidence := 0,
         from_cache := false, total_candidates := 0 }, c.2)
    else if pyStrip query = [] then
      ({ status := str "error", message := str "Empty query",
         best_match := none, top_similar := [], confidence := 0,
         from_cache := false, total_candidates := 0 }, c.2)
    else
      let query_clean := pyStrip query
      let result := compute_response env query_clean lang
      (result, cache_result query_clean lang result c.2)

/-! ## Generic lemmas about the association-list cache -/

/-- insertAssoc_length bounds the growth of a dict assignment by one. -/
theorem insertAssoc_length {α β : Type} [DecidableEq α] (k : α) (v : β)
    (l : List (α × β)) :
    (insertAssoc k v l).length ≤ l.length + 1 := by
  induction l with
  | nil => simp [insertAssoc]
  | cons p rest ih =>
    by_cases h : p.1 = k
    · simp [insertAssoc, h]
    · simp only [insertAssoc, if_neg h, List.length_cons]
      omega

/-- lookupAssoc_insertAssoc_self: a fresh assignment is found again. -/
theorem lookupAssoc_insertAssoc_self {α β : Type} [DecidableEq α] (k : α) (v : β)
    (l : List (α × β)) :
    lookupAssoc (insertAssoc k v l) k = some v := by
  induction l with
  | nil => simp [insertAssoc, lookupAssoc]
  | cons p rest ih =>
    by_cases h : p.1 = k
    · simp [insertAssoc, h, lookupAssoc]
    · simpa [insertAssoc, h, lookupAssoc, List.find?] using ih

/-- insertAssoc_mem: every entry of the updated dict is the new binding
or an old one. -/
theorem insertAssoc_mem {α β : Type} [DecidableEq α] (k : α) (v : β)
    (l : List (α × β)) :
    ∀ p ∈ insertAssoc k v l, p = (k, v) ∨ p ∈ l := by
  induction l with
  | nil =>
    intro p hp
    simpa [insertAssoc] using hp
  | cons q rest ih =>
    intro p hp
    by_cases h : q.1 = k
    · simp only [insertAssoc, if_pos h] at hp
      rcases List.mem_cons.mp hp with h2 | h2
      · exact Or.inl h2
      · exact Or.inr (List.mem_cons_of_mem _ h2)
    · simp only [insertAssoc, if_neg h] at hp
      rcases List.mem_cons.mp hp with h2 | h2
      · exact Or.inr (h2 ▸ List.mem_cons_self _ _)
      · rcases ih p h2 with h3 | h3
        · exact Or.inl h3
        · exact Or.inr (List.mem_cons_of_mem _ h3)

/-! ## Claim C10 -/

/-- C10: the result cache is bounded: an insert below or at the capacity
of 200 stays at or below 200; an insert at capacity first evicts the
oldest-inserted (first) entry; and the periodic cleanup (after more than
900 seconds) trims a cache above 50 entries to exactly its 50 most
recently inserted entries. -/
theorem C10_cache_bounded :
    (∀ (st : CacheState) (q lang : Str) (r : Response),
      st.entries.length ≤ cache_max_size →
      (cache_result q lang r st).entries.length ≤ cache_max_size) ∧
    (∀ (st : CacheState) (q lang : Str) (r : Response),
      st.entries.length = cache_max_size →
      (cache_result q lang r st).entries =
        insertAssoc (cache_key q lang) r (st.entries.drop 1)) ∧
    (∀ (now : Nat) (st : CacheState),
      900 < now - st.lastCleanup → 50 < st.entries.length →
      (cleanup_memory_cache now st).entries =
        st.entries.drop (st.entries.length - 50) ∧
      (cleanup_memory_cache now st).entries.length = 50) := by
  refine ⟨?_, ?_, ?_⟩
  · intro st q lang r hle
    unfold cache_result cache_max_size
    unfold cache_max_size at hle
    by_cases h : 200 ≤ st.entries.length
    · have h200 : st.entries.length = 200 := le_antisymm hle h
      simp only [if_pos h]
      have := insertAssoc_length (cache_key q lang) r (st.entries.drop 1)
      have hd : (st.entries.drop 1).length = 200 - 1 := by
        simp [List.length_drop, h200]
      omega
    · simp only [if_neg h]
      have := insertAssoc_length (cache_key q lang) r st.entries
      omega
  · intro st q lang r h200
    unfold cache_result
    rw [if_pos (le_of_eq h200.symm)]
  · intro now st htime hlen
    unfold cleanup_memory_cache
    rw [if_pos htime]
    refine ⟨by rw [if_pos hlen], ?_⟩
    rw [if_pos hlen]
    simp [List.length_drop]
    omega

/-- dummy_response is a fixed response value used to instantiate cache
statements on concrete states. -/
def dummy_response : Response :=
  { status := str "not_found", message := str "No matches found",
    best_match := none, top_similar := [], confidence := 0,
    from_cache := false, total_candidates := 0 }

/-- C10 witness: the bound, the eviction equation and the cleanup trim
instantiated on concrete caches (an empty one, a full one with 200
entries, and a stale one with 60 entries). -/
theorem C10_witness :
    (cache_result (str "пример") (str "ru") dummy_response
        ⟨[], 0⟩).entries.length ≤ cache_max_size ∧
    (cache_result (str "пример") (str "ru") dummy_response
        ⟨List.replicate 200 (str "к", dummy_response), 0⟩).entries =
      insertAssoc (cache_key (str "пример") (str "ru")) dummy_response
        ((List.replicate 200 (str "к", dummy_response)).drop 1) ∧
    ((cleanup_memory_cache 1000
        ⟨List.replicate 60 (str "к", dummy_response), 0⟩).entries =
      (List.replicate 60 (str "к", dummy_response)).drop
        ((List.replicate 60 (str "к", dummy_response)).length - 50) ∧
     (cleanup_memory_cache 1000
        ⟨List.replicate 60 (str "к", dummy_response), 0⟩).entries.length = 50) :=
  ⟨C10_cache_bounded.1 ⟨[], 0⟩ (str "пример") (str "ru") dummy_response
      (by rw [List.length_nil]; exact Nat.zero_le _),
   C10_cache_bounded.2.1 ⟨List.replicate 200 (str "к", dummy_response), 0⟩
      (str "пример") (str "ru") dummy_response (by rw [List.length_replicate]; rfl),
   C10_cache_bounded.2.2 1000 ⟨List.replicate 60 (str "к", dummy_response), 0⟩
      (by norm_num) (by rw [List.length_replicate]; norm_num)⟩

/-! ## Lemmas about deduplication and the selection loops -/

/-- dedup_go_spec: the deduplication worker returns a sublist whose
codes avoid the seen set and are pairwise distinct. -/
theorem dedup_go_spec (l : List Candidate) :
    ∀ seen : List Str,
      (dedup_by_code_go seen l).Sublist l ∧
      (∀ c ∈ dedup_by_code_go seen l, c.code ∉ seen) ∧
      (dedup_by_code_go seen l).Pairwise (fun a b => a.code ≠ b.code) := by
  induction l with
  | nil => intro seen; simp [dedup_by_code_go]
  | cons r rest ih =>
    intro seen
    by_cases h : r.code ∈ seen
    · simp only [dedup_by_code_go, if_pos h]
      obtain ⟨s1, s2, s3⟩ := ih seen
      exact ⟨s1.cons _, s2, s3⟩
    · simp only [dedup_by_code_go, if_neg h]
      obtain ⟨s1, s2, s3⟩ := ih (r.code :: seen)
      refine ⟨s1.cons₂ _, ?_, ?_⟩
      · intro c hc
        rcases List.mem_cons.mp hc with rfl | hc2
        · exact h
        · intro hmem
          exact s2 c hc2 (List.mem_cons_of_mem _ hmem)
      · refine List.Pairwise.cons ?_ s3
        intro b hb he
        exact s2 b hb (he ▸ List.mem_cons_self _ _)

/-- dedup_go_find: every survivor of deduplication is the first
occurrence of its code in the input. -/
theorem dedup_go_find (l : List Candidate) :
    ∀ seen : List Str, ∀ c ∈ dedup_by_code_go seen l,
      c.code ∉ seen ∧ l.find? (fun x => x.code = c.code) = some c := by
  induction l with
  | nil => intro seen c hc; simp [dedup_by_code_go] at hc
  | cons r rest ih =>
    intro seen c hc
    by_cases h : r.code ∈ seen
    · simp only [dedup_by_code_go, if_pos h] at hc
      obtain ⟨h1, h2⟩ := ih seen c hc
      have hne : decide (r.code = c.code) = false := by
        simp only [decide_eq_false_iff_not]
        intro he
        exact h1 (he ▸ h)
      refine ⟨h1, ?_⟩
      simp only [List.find?, hne, cond_false]
      exact h2
    · simp only [dedup_by_code_go, if_neg h] at hc
      rcases List.mem_cons.mp hc with rfl | hc2
      · refine ⟨h, ?_⟩
        simp [List.find?]
      · obtain ⟨h1, h2⟩ := ih (r.code :: seen) c hc2
        have hne : c.code ≠ r.code := fun he => h1 (he ▸ List.mem_cons_self _ _)
        have hneb : decide (r.code = c.code) = false := by
          simp only [decide_eq_false_iff_not]
          exact fun he => hne he.symm
        refine ⟨fun hm => h1 (List.mem_cons_of_mem _ hm), ?_⟩
        simp only [List.find?, hneb, cond_false]
        exact h2

/-- similar_loop_append: the selection loop appends a sublist of its
input to the accumulator. -/
theorem similar_loop_append (threshold : ℚ) (cap : Nat) (items : List Candidate) :
    ∀ (seen : List Str) (acc : List Candidate),
      ∃ t, similar_loop threshold cap items seen acc = acc ++ t ∧ t.Sublist items := by
  induction items with
  | nil =>
    intro seen acc
    exact ⟨[], by simp [similar_loop], List.nil_sublist _⟩
  | cons item rest ih =>
    intro seen acc
    simp only [similar_loop]
    by_cases hk : threshold ≤ item.relevance_score ∧ item.code ∉ seen
    · simp only [if_pos hk]
      by_cases hc : cap ≤ (acc ++ [item]).length
      · exact ⟨[item], by rw [if_pos hc], (List.nil_sublist rest).cons₂ item⟩
      · obtain ⟨t2, ht2, hs2⟩ := ih (item.code :: seen) (acc ++ [item])
        refine ⟨item :: t2, ?_, hs2.cons₂ item⟩
        rw [if_neg hc, ht2, List.append_assoc]
        rfl
    · simp only [if_neg hk]
      by_cases hc : cap ≤ acc.length
      · exact ⟨[], by rw [if_pos hc]; simp, List.nil_sublist _⟩
      · obtain ⟨t2, ht2, hs2⟩ := ih seen acc
        exact ⟨t2, by rw [if_neg hc]; exact ht2, hs2.cons _⟩

/-- similar_loop_distinct: the selection loop keeps codes pairwise
distinct and never emits a code from the initial seen set. -/
theorem similar_loop_distinct (threshold : ℚ) (cap : Nat) (items : List Candidate) :
    ∀ (seen : List Str) (acc : List Candidate),
      acc.Pairwise (fun a b => a.code ≠ b.code) →
      (∀ a ∈ acc, a.code ∈ seen) →
      (similar_loop threshold cap items seen acc).Pairwise
        (fun a b => a.code ≠ b.code) ∧
      ∀ a ∈ similar_loop threshold cap items seen acc, a ∈ acc ∨ a.code ∉ seen := by
  induction items with
  | nil =>
    intro seen acc hpair hseen
    refine ⟨by simpa [similar_loop] using hpair, ?_⟩
    intro a ha
    simp only [similar_loop] at ha
    exact Or.inl ha
  | cons item rest ih =>
    intro seen acc hpair hseen
    simp only [similar_loop]
    by_cases hk : threshold ≤ item.relevance_score ∧ item.code ∉ seen
    · simp only [if_pos hk]
      have hpair2 : (acc ++ [item]).Pairwise (fun a b => a.code ≠ b.code) := by
        rw [List.pairwise_append]
        refine ⟨hpair, List.pairwise_singleton _ _, ?_⟩
        intro a ha b hb
        rw [List.mem_singleton] at hb
        subst hb
        intro he
        exact hk.2 (he ▸ hseen a ha)
      have hseen2 : ∀ a ∈ acc ++ [item], a.code ∈ item.code :: seen := by
        intro a ha
        rcases List.mem_append.mp ha with ha2 | ha2
        · exact List.mem_cons_of_mem _ (hseen a ha2)
        · rw [List.mem_singleton] at ha2
          subst ha2
          exact List.mem_cons_self _ _
      by_cases hc : cap ≤ (acc ++ [item]).length
      · rw [if_pos hc]
        refine ⟨hpair2, ?_⟩
        intro a ha
        rcases List.mem_append.mp ha with ha2 | ha2
        · exact Or.inl ha2
        · rw [List.mem_singleton] at ha2
          subst ha2
          exact Or.inr hk.2
      · rw [if_neg hc]
        obtain ⟨p1, p2⟩ := ih (item.code :: seen) (acc ++ [item]) hpair2 hseen2
        refine ⟨p1, ?_⟩
        intro a ha
        rcases p2 a ha with ha2 | ha2
        · rcases List.mem_append.mp ha2 with ha3 | ha3
          · exact Or.inl ha3
          · rw [List.mem_singleton] at ha3
            subst ha3
            exact Or.inr hk.2
        · exact Or.inr fun hm => ha2 (List.mem_cons_of_mem _ hm)
    · simp only [if_neg hk]
      by_cases hc : cap ≤ acc.length
      · rw [if_pos hc]
        refine ⟨hpair, fun a ha => Or.inl ha⟩
      · rw [if_neg hc]
        exact ih seen acc hpair hseen

/-- cleanCand_code: output cleaning does not change the code. -/
@[simp] theorem cleanCand_code (c : Candidate) : (cleanCand c).code = c.code := rfl

/-- cleanCand_rel: output cleaning does not change the relevance score. -/
@[simp] theorem cleanCand_rel (c : Candidate) :
    (cleanCand c).relevance_score = c.relevance_score := rfl

/-- response_candidates collects the candidates of a response in
presentation order: the best match (when present) then top_similar. -/
def response_candidates (r : Response) : List Candidate :=
  r.best_match.toList ++ r.top_similar

/-- build_response_distinct: the candidates of a built response carry
pairwise distinct codes. -/
theorem build_response_distinct (sm : List Candidate) :
    (response_candidates (build_response sm)).Pairwise
      (fun a b => a.code ≠ b.code) := by
  unfold build_response
  split
  · simp [response_candidates]
  case _ top rest =>
    by_cases h1 : SCORE_THRESHOLD_BEST_MATCH ≤ top.relevance_score
    · rw [if_pos h1]
      simp only [response_candidates, Option.toList_some]
      obtain ⟨p1, p2⟩ := similar_loop_distinct SCORE_THRESHOLD_TOP_SIMILAR
        TOP_K_BEST_MATCH_SIMILAR rest [top.code] [] List.Pairwise.nil (by simp)
      rw [List.cons_append, List.nil_append]
      refine List.Pairwise.cons ?_ ?_
      · intro b hb
        rw [List.mem_map] at hb
        obtain ⟨a, ha, rfl⟩ := hb
        rcases p2 a ha with h2 | h2
        · simp at h2
        · simp only [cleanCand_code]
          intro he
          exact h2 (he ▸ List.mem_cons_self _ _)
      · rw [List.pairwise_map]
        exact p1.imp (by intro a b hab; simpa using hab)
    · rw [if_neg h1]
      by_cases h2 : MIN_RELEVANCE_FOR_ANY_MATCH ≤ top.relevance_score
      · rw [if_pos h2]
        simp only [response_candidates, Option.toList_none, List.nil_append]
        obtain ⟨p1, _⟩ := similar_loop_distinct MIN_RELEVANCE_FOR_ANY_MATCH
          TOP_K_NOT_FOUND_SUGGESTIONS (top :: rest) [] [] List.Pairwise.nil (by simp)
        rw [List.pairwise_map]
        exact p1.imp (by intro a b hab; simpa using hab)
      · rw [if_neg h2]
        simp [response_candidates]

/-- compute_response_distinct: the candidates of a computed response
carry pairwise distinct codes. -/
theorem compute_response_distinct (env : Env) (q lang : Str) :
    (response_candidates (compute_response env q lang)).Pairwise
      (fun a b => a.code ≠ b.code) := build_response_distinct _

/-! ## Claim C2 -/

/-- C2: deduplication keeps at most one candidate per code, and the
survivor is the first occurrence of its code in accumulation order (not
the highest-scored one); in the final response the best match and the
top-similar list likewise carry pairwise distinct codes. -/
theorem C2_first_occurrence_survives :
    (∀ l : List Candidate,
      (dedup_by_code l).Sublist l ∧
      (dedup_by_code l).Pairwise (fun a b => a.code ≠ b.code) ∧
      ∀ c ∈ dedup_by_code l, l.find? (fun x => x.code = c.code) = some c) ∧
    (∀ env q lang,
      (response_candidates (compute_response env q lang)).Pairwise
        (fun a b => a.code ≠ b.code)) := by
  constructor
  · intro l
    obtain ⟨s1, _, s3⟩ := dedup_go_spec l []
    exact ⟨s1, s3, fun c hc => (dedup_go_find l [] c hc).2⟩
  · exact compute_response_distinct

/-! ## Lemmas about sorting and enrichment -/

/-- relGE is the descending-relevance order of the response. -/
def relGE (a b : Candidate) : Prop := b.relevance_score ≤ a.relevance_score

/-- insertDesc_mem: insertion produces exactly the old elements plus the
new one. -/
theorem insertDesc_mem (x : Candidate) (l : List Candidate) :
    ∀ y ∈ insertDesc x l, y = x ∨ y ∈ l := by
  induction l with
  | nil => intro y hy; simpa [insertDesc] using hy
  | cons h rest ih =>
    intro y hy
    by_cases hc : x.relevance_score < h.relevance_score
    · simp only [insertDesc, if_pos hc] at hy
      rcases List.mem_cons.mp hy with rfl | hy2
      · exact Or.inr (List.mem_cons_self _ _)
      · rcases ih y hy2 with h2 | h2
        · exact Or.inl h2
        · exact Or.inr (List.mem_cons_of_mem _ h2)
    · simp only [insertDesc, if_neg hc] at hy
      rcases List.mem_cons.mp hy with rfl | hy2
      · exact Or.inl rfl
      · exact Or.inr hy2

/-- insertDesc_pairwise: insertion preserves the descending order. -/
theorem insertDesc_pairwise (x : Candidate) (l : List Candidate)
    (hl : l.Pairwise relGE) : (insertDesc x l).Pairwise relGE := by
  induction l with
  | nil => simp [insertDesc, List.pairwise_singleton]
  | cons h rest ih =>
    rw [List.pairwise_cons] at hl
    obtain ⟨hh, hrest⟩ := hl
    by_cases hc : x.relevance_score < h.relevance_score
    · simp only [insertDesc, if_pos hc]
      refine List.Pairwise.cons ?_ (ih hrest)
      intro y hy
      rcases insertDesc_mem x rest y hy with rfl | hy2
      · exact le_of_lt hc
      · exact hh y hy2
    · simp only [insertDesc, if_neg hc]
      refine List.Pairwise.cons ?_ (List.Pairwise.cons hh hrest)
      intro y hy
      rcases List.mem_cons.mp hy with rfl | hy2
      · exact not_lt.mp hc
      · exact le_trans (hh y hy2) (not_lt.mp hc)

/-- sort_mem: sorting preserves membership (forward direction). -/
theorem sort_mem (l : List Candidate) :
    ∀ y ∈ sort_by_relevance l, y ∈ l := by
  induction l with
  | nil => simp [sort_by_relevance]
  | cons x rest ih =>
    intro y hy
    simp only [sort_by_relevance] at hy
    rcases insertDesc_mem x (sort_by_relevance rest) y hy with rfl | hy2
    · exact List.mem_cons_self _ _
    · exact List.mem_cons_of_mem _ (ih y hy2)

/-- sort_pairwise: the sorted candidate list is in descending order. -/
theorem sort_pairwise (l : List Candidate) :
    (sort_by_relevance l).Pairwise relGE := by
  induction l with
  | nil => simp [sort_by_relevance]
  | cons x rest ih => exact insertDesc_pairwise x _ ih

/-- enrich_one_rel: enrichment keeps the relevance score. -/
theorem enrich_one_rel (env : Env) (c : Candidate) :
    (enrich_one env c).relevance_score = c.relevance_score := by
  unfold enrich_one
  by_cases h : c.code = []
  · rw [if_pos h]
  · rw [if_neg h]
    cases env.dbLookup c.code <;> rfl

/-- enrich_one_code: enrichment keeps the code. -/
theorem enrich_one_code (env : Env) (c : Candidate) :
    (enrich_one env c).code = c.code := by
  unfold enrich_one
  by_cases h : c.code = []
  · rw [if_pos h]
  · rw [if_neg h]
    cases env.dbLookup c.code <;> rfl

/-- enrich_mem: every enriched result arises from an input result. -/
theorem enrich_mem (env : Env) (l : List Candidate) :
    ∀ c ∈ enrich_with_database_info env l, ∃ c0 ∈ l, c = enrich_one env c0 := by
  intro c hc
  unfold enrich_with_database_info at hc
  by_cases h : (l.map (enrich_one env)).filter (fun r => r.validated) ≠ []
  · rw [if_pos h] at hc
    have := List.mem_of_mem_filter hc
    rw [List.mem_map] at this
    obtain ⟨c0, hc0, he⟩ := this
    exact ⟨c0, hc0, he.symm⟩
  · rw [if_neg h] at hc
    rw [List.mem_map] at hc
    obtain ⟨c0, hc0, he⟩ := hc
    exact ⟨c0, hc0, he.symm⟩

/-- enrich_pairwise: enrichment preserves the descending order. -/
theorem enrich_pairwise (env : Env) (l : List Candidate)
    (hl : l.Pairwise relGE) :
    (enrich_with_database_info env l).Pairwise relGE := by
  unfold enrich_with_database_info
  have hmap : (l.map (enrich_one env)).Pairwise relGE := by
    rw [List.pairwise_map]
    refine hl.imp ?_
    intro a b hab
    simpa [relGE, enrich_one_rel] using hab
  by_cases h : (l.map (enrich_one env)).filter (fun r => r.validated) ≠ []
  · rw [if_pos h]
    exact List.Pairwise.sublist (List.filter_sublist _) hmap
  · rw [if_neg h]
    exact hmap

/-- build_response_sorted: from a descending scored_matches list the
built response has a best match at least as relevant as every
top-similar entry, and a descending top_similar list. -/
theorem build_response_sorted (sm : List Candidate) (hs : sm.Pairwise relGE) :
    ((build_response sm).top_similar).Pairwise relGE ∧
    (∀ b, (build_response sm).best_match = some b →
      ∀ c ∈ (build_response sm).top_similar,
        c.relevance_score ≤ b.relevance_score) := by
  unfold build_response
  split
  · simp
  case _ top rest =>
    rw [List.pairwise_cons] at hs
    obtain ⟨htop, hrest⟩ := hs
    by_cases h1 : SCORE_THRESHOLD_BEST_MATCH ≤ top.relevance_score
    · rw [if_pos h1]
      obtain ⟨t, ht, hsub⟩ := similar_loop_append SCORE_THRESHOLD_TOP_SIMILAR
        TOP_K_BEST_MATCH_SIMILAR rest [top.code] []
      rw [List.nil_append] at ht
      constructor
      · simp only [ht, List.pairwise_map]
        exact (List.Pairwise.sublist hsub hrest).imp (by
          intro a b hab
          simpa [relGE] using hab)
      · intro b hb c hc
        simp only [Option.some.injEq] at hb
        subst hb
        simp only [ht, List.mem_map] at hc
        obtain ⟨a, ha, rfl⟩ := hc
        simpa [relGE] using htop a (hsub.mem ha)
    · rw [if_neg h1]
      by_cases h2 : MIN_RELEVANCE_FOR_ANY_MATCH ≤ top.relevance_score
      · rw [if_pos h2]
        obtain ⟨t, ht, hsub⟩ := similar_loop_append MIN_RELEVANCE_FOR_ANY_MATCH
          TOP_K_NOT_FOUND_SUGGESTIONS (top :: rest) [] []
        rw [List.nil_append] at ht
        constructor
        · simp only [ht, List.pairwise_map]
          exact (List.Pairwise.sublist hsub (List.Pairwise.cons htop hrest)).imp (by
            intro a b hab
            simpa [relGE] using hab)
        · intro b hb
          simp at hb
      · rw [if_neg h2]
        simp

/-- scored_matches_pairwise: the list fed to build_response by
compute_response is in descending relevance order. -/
theorem scored_matches_pairwise (env : Env) (q lang : Str) :
    (if sort_by_relevance (dedup_by_code (all_candidates env q lang)) ≠ [] then
      enrich_with_database_info env
        ((sort_by_relevance (dedup_by_code (all_candidates env q lang))).take 20)
     else sort_by_relevance (dedup_by_code (all_candidates env q lang))).Pairwise
      relGE := by
  by_cases h : sort_by_relevance (dedup_by_code (all_candidates env q lang)) ≠ []
  · rw [if_pos h]
    exact enrich_pairwise env _
      (List.Pairwise.sublist (List.take_sublist _ _) (sort_pairwise _))
  · rw [if_neg h]
    exact sort_pairwise _

/-! ## Claim C8 -/

/-- C8: in every computed response the candidates appear in
non-increasing relevance_score order: the best match (when present) has
a score at least that of every top_similar element, and top_similar is
itself non-increasing; the order survives enrichment and threshold
filtering because both preserve it. -/
theorem C8_response_order (env : Env) (q lang : Str) :
    ((compute_response env q lang).top_similar).Pairwise relGE ∧
    (∀ b, (compute_response env q lang).best_match = some b →
      ∀ c ∈ (compute_response env q lang).top_similar,
        c.relevance_score ≤ b.relevance_score) :=
  build_response_sorted _ (scored_matches_pairwise env q lang)

/-! ## Score bounds (claim C3) -/

/-- score_unit_interval: the relevance scorer clamps into the unit
interval for all inputs. -/
theorem score_unit_interval (fz : Str → Str → ℚ × ℚ × ℚ × ℚ)
    (qn ql dn dl : Str) (sem : ℚ) (qlen dlen : Nat) (pc : Str) :
    0 ≤ calculate_enhanced_relevance_score fz qn ql dn dl sem qlen dlen pc ∧
    calculate_enhanced_relevance_score fz qn ql dn dl sem qlen dlen pc ≤ 1 := by
  unfold calculate_enhanced_relevance_score
  exact ⟨le_max_left _ _, max_le (by norm_num) (min_le_right _ _)⟩

/-- findSub_le_length: a found index never exceeds the haystack
length. -/
theorem findSub_le_length (n : Str) :
    ∀ h : Str, ∀ i, findSub n h = some i → i ≤ h.length := by
  intro h
  induction h with
  | nil =>
    intro i hi
    simp only [findSub] at hi
    split at hi
    · simp at hi
      omega
    · simp at hi
  | cons c rest ih =>
    intro i hi
    simp only [findSub] at hi
    split at hi
    · simp at hi
      omega
    · cases hrec : findSub n rest with
      | none =>
        rw [hrec] at hi
        exact absurd hi (by simp)
      | some j =>
        rw [hrec] at hi
        simp at hi
        have := ih j hrec
        simp only [List.length_cons]
        omega

/-- getD_findSub_le: the position used by the phrase score is bounded by
the description length. -/
theorem getD_findSub_le (n h : Str) : (findSub n h).getD 0 ≤ h.length := by
  cases hf : findSub n h with
  | none => simp
  | some i => simpa using findSub_le_length n h i hf

/-- exact_match_bounds: exact-match candidates score within [0, 1]. -/
theorem exact_match_bounds (env : Env) (q : Str) :
    ∀ c ∈ exact_match_search env q,
      0 ≤ c.relevance_score ∧ c.relevance_score ≤ 1 := by
  intro c hc
  unfold exact_match_search at hc
  rw [List.mem_append] at hc
  rcases hc with hc | hc
  · split at hc
    · rw [List.mem_map] at hc
      obtain ⟨r, _, rfl⟩ := hc
      norm_num
    · simp at hc
  · rw [List.mem_filterMap] at hc
    obtain ⟨r, _, hr⟩ := hc
    by_cases hs : isSub (pyLower (normalize_text q)) (pyLower (normalize_text r.description)) = true
    · rw [if_pos hs] at hr
      simp only [Option.some.injEq] at hr
      subst hr
      set dn := pyLower (normalize_text r.description) with hdn
      have hpos : ((findSub (pyLower (normalize_text q)) dn).getD 0 : ℚ) ≤ (dn.length : ℚ) := by
        exact_mod_cast getD_findSub_le _ _
      have hden : (dn.length : ℚ) ≤ ((max dn.length 1 : Nat) : ℚ) := by
        exact_mod_cast Nat.le_max_left _ _
      have hdenpos : (0 : ℚ) < ((max dn.length 1 : Nat) : ℚ) := by
        have : (1 : Nat) ≤ max dn.length 1 := Nat.le_max_right _ _
        exact_mod_cast Nat.lt_of_lt_of_le Nat.zero_lt_one this
      have hratio : ((findSub (pyLower (normalize_text q)) dn).getD 0 : ℚ) /
          ((max dn.length 1 : Nat) : ℚ) ≤ 1 := by
        rw [div_le_one hdenpos]
        exact le_trans hpos hden
      have hrationn : (0 : ℚ) ≤ ((findSub (pyLower (normalize_text q)) dn).getD 0 : ℚ) /
          ((max dn.length 1 : Nat) : ℚ) := by
        apply div_nonneg _ (le_of_lt hdenpos)
        exact_mod_cast Nat.zero_le _
      constructor
      · simp only
        have : (0 : ℚ) ≤ 0.9 + (1 - ((findSub (pyLower (normalize_text q)) dn).getD 0 : ℚ) /
            ((max dn.length 1 : Nat) : ℚ) * 0.3) * 0.1 := by nlinarith
        exact le_min (by norm_num) this
      · exact min_le_left _ _
    · rw [if_neg hs] at hr
      simp at hr

/-- foldl_preserve: a fold whose step preserves an invariant preserves
it from the initial accumulator. -/
theorem foldl_preserve {α β : Type} (step : β → α → β) (P : β → Prop)
    (l : List α) :
    ∀ init, P init → (∀ acc x, P acc → P (step acc x)) → P (l.foldl step init) := by
  induction l with
  | nil => intro init h _; exact h
  | cons x rest ih =>
    intro init h hstep
    exact ih (step init x) (hstep init x h) hstep

/-- hybrid_bounds: hybrid-stage candidates score within [0, 1.1] (the
scorer clamps to [0, 1], the hybrid boost multiplies by 1.1, the
corrected-variant factor by 0.95). -/
theorem hybrid_bounds (env : Env) (eq qc qn ql : Str) :
    ∀ c ∈ hybrid_stage env eq qc qn ql,
      0 ≤ c.relevance_score ∧ c.relevance_score ≤ 1.1 := by
  unfold hybrid_stage
  intro c hc
  rw [List.mem_map] at hc
  obtain ⟨p, hp, rfl⟩ := hc
  refine foldl_preserve _
    (fun acc : List (Nat × Candidate) =>
      ∀ q ∈ acc, 0 ≤ q.2.relevance_score ∧ q.2.relevance_score ≤ 1.1)
    _ _ ?_ ?_ p hp
  · refine foldl_preserve _
      (fun acc : List (Nat × Candidate) =>
        ∀ q ∈ acc, 0 ≤ q.2.relevance_score ∧ q.2.relevance_score ≤ 1.1)
      _ _ ?_ ?_
    · intro q hq
      simp at hq
    · intro acc x hacc
      dsimp only
      cases hE : env.entries.get? x.1 with
      | none => exact hacc
      | some item =>
        intro q hq
        rcases insertAssoc_mem _ _ acc q hq with rfl | hmem
        · dsimp only
          obtain ⟨hs0, hs1⟩ := score_unit_interval env.fuzz qn ql
            item.normalized_description item.lemmatized_description
            (find_semantic_score (env.semantic ql) x.1)
            (splitWs ql).length item.description.length item.code
          constructor
          · split <;> split <;> nlinarith [hs0, hs1]
          · split <;> split <;> nlinarith [hs0, hs1]
        · exact hacc q hmem
  · intro acc x hacc
    dsimp only
    by_cases hL : (lookupAssoc acc x.1).isSome
    · rw [if_pos hL]
      exact hacc
    · rw [if_neg hL]
      cases hE : env.entries.get? x.1 with
      | none => exact hacc
      | some item =>
        intro q hq
        rw [List.mem_append] at hq
        rcases hq with hq | hq
        · exact hacc q hq
        · rw [List.mem_singleton] at hq
          subst hq
          dsimp only
          obtain ⟨hs0, hs1⟩ := score_unit_interval env.fuzz qn ql
            item.normalized_description item.lemmatized_description x.2
            (splitWs ql).length item.description.length item.code
          exact ⟨hs0, le_trans hs1 (by norm_num)⟩

/-- all_candidates_bounds: every accumulated candidate scores within
[0, 1.1]. -/
theorem all_candidates_bounds (env : Env) (qc lang : Str) :
    ∀ c ∈ all_candidates env qc lang,
      0 ≤ c.relevance_score ∧ c.relevance_score ≤ 1.1 := by
  unfold all_candidates
  refine foldl_preserve _
    (fun acc : List Candidate =>
      ∀ c ∈ acc, 0 ≤ c.relevance_score ∧ c.relevance_score ≤ 1.1) _ _ ?_ ?_
  · intro c hc
    simp at hc
  · intro acc x hacc
    dsimp only
    split
    · intro c hc
      rw [List.mem_append] at hc
      rcases hc with hc | hc
      · rw [List.mem_append] at hc
        rcases hc with hc | hc
        · exact hacc c hc
        · obtain ⟨h0, h1⟩ := exact_match_bounds env x c hc
          exact ⟨h0, le_trans h1 (by norm_num)⟩
      · exact hybrid_bounds env x qc (normalize_text x)
          (remove_stopwords (env.lemmatize (normalize_text x)) lang) c hc
    · exact hacc

/-- build_response_mem: every candidate presented by a built response is
a cleaned copy of some scored match. -/
theorem build_response_mem (sm : List Candidate) :
    ∀ c ∈ response_candidates (build_response sm),
      ∃ c0 ∈ sm, c = cleanCand c0 := by
  unfold build_response
  split
  · intro c hc
    simp [response_candidates] at hc
  case _ top rest =>
    by_cases h1 : SCORE_THRESHOLD_BEST_MATCH ≤ top.relevance_score
    · rw [if_pos h1]
      intro c hc
      simp only [response_candidates, Option.toList_some, List.cons_append,
        List.nil_append] at hc
      rcases List.mem_cons.mp hc with rfl | hc2
      · exact ⟨top, List.mem_cons_self _ _, rfl⟩
      · obtain ⟨t, ht, hsub⟩ := similar_loop_append SCORE_THRESHOLD_TOP_SIMILAR
          TOP_K_BEST_MATCH_SIMILAR rest [top.code] []
        rw [List.nil_append] at ht
        rw [ht, List.mem_map] at hc2
        obtain ⟨a, ha, rfl⟩ := hc2
        exact ⟨a, List.mem_cons_of_mem _ (hsub.mem ha), rfl⟩
    · rw [if_neg h1]
      by_cases h2 : MIN_RELEVANCE_FOR_ANY_MATCH ≤ top.relevance_score
      · rw [if_pos h2]
        intro c hc
        simp only [response_candidates, Option.toList_none, List.nil_append] at hc
        obtain ⟨t, ht, hsub⟩ := similar_loop_append MIN_RELEVANCE_FOR_ANY_MATCH
          TOP_K_NOT_FOUND_SUGGESTIONS (top :: rest) [] []
        rw [List.nil_append] at ht
        rw [ht, List.mem_map] at hc
        obtain ⟨a, ha, rfl⟩ := hc
        exact ⟨a, hsub.mem ha, rfl⟩
      · rw [if_neg h2]
        intro c hc
        simp [response_candidates] at hc

/-- scored_matches_bounds: the validated scored matches stay within
[0, 1.1]. -/
theorem scored_matches_bounds (env : Env) (q lang : Str) :
    ∀ c ∈ (if sort_by_relevance (dedup_by_code (all_candidates env q lang)) ≠ [] then
      enrich_with_database_info env
        ((sort_by_relevance (dedup_by_code (all_candidates env q lang))).take 20)
     else sort_by_relevance (dedup_by_code (all_candidates env q lang))),
      0 ≤ c.relevance_score ∧ c.relevance_score ≤ 1.1 := by
  have hsorted : ∀ c ∈ sort_by_relevance (dedup_by_code (all_candidates env q lang)),
      0 ≤ c.relevance_score ∧ c.relevance_score ≤ 1.1 := by
    intro c hc
    have h1 := sort_mem _ c hc
    have h2 := (dedup_go_spec (all_candidates env q lang) []).1.mem h1
    exact all_candidates_bounds env q lang c h2
  by_cases h : sort_by_relevance (dedup_by_code (all_candidates env q lang)) ≠ []
  · rw [if_pos h]
    intro c hc
    obtain ⟨c0, hc0, rfl⟩ := enrich_mem env _ c hc
    rw [enrich_one_rel]
    exact hsorted c0 (List.mem_of_mem_take hc0)
  · rw [if_neg h]
    exact hsorted

/-! ## Claim C3 -/

/-- C3 (amended): the relevance scorer itself clamps into [0, 1] for
every input; every candidate presented in a computed response (best
match or top_similar) has its relevance_score in [0, 1.1] rather than
[0, 1], because the 10 percent hybrid boost is applied after the clamp
(the corrected-variant factor 0.95 keeps products at most 1.1). -/
theorem C3_relevance_bounds :
    (∀ (fz : Str → Str → ℚ × ℚ × ℚ × ℚ) (qn ql dn dl : Str) (sem : ℚ)
        (qlen dlen : Nat) (pc : Str),
      0 ≤ calculate_enhanced_relevance_score fz qn ql dn dl sem qlen dlen pc ∧
      calculate_enhanced_relevance_score fz qn ql dn dl sem qlen dlen pc ≤ 1) ∧
    (∀ (env : Env) (q lang : Str),
      ∀ c ∈ response_candidates (compute_response env q lang),
        0 ≤ c.relevance_score ∧ c.relevance_score ≤ 1.1) := by
  refine ⟨score_unit_interval, ?_⟩
  intro env q lang c hc
  obtain ⟨c0, hc0, rfl⟩ := build_response_mem _ c hc
  rw [cleanCand_rel]
  exact scored_matches_bounds env q lang c0 hc0

/-! ## Status taxonomy (claim C5) -/

/-- cleanup_not_due: right after a cleanup pass the cleanup is never due
again at the same time. -/
theorem cleanup_not_due (now : Nat) (st : CacheState) :
    ¬ 900 < now - (cleanup_memory_cache now st).lastCleanup := by
  unfold cleanup_memory_cache
  by_cases h : 900 < now - st.lastCleanup
  · rw [if_pos h]
    simp
  · rw [if_neg h]
    exact h

/-- cleanup_noop: a cleanup that is not due leaves the state alone. -/
theorem cleanup_noop (now : Nat) (st : CacheState)
    (h : ¬ 900 < now - st.lastCleanup) : cleanup_memory_cache now st = st := by
  unfold cleanup_memory_cache
  rw [if_neg h]

/-! ## Claim C9 -/

/-- C9 (amended): for an initialized system and a query equal to its own
strip (no surrounding whitespace) and non-empty, searching twice in
immediate succession yields the same status and best-match code, and the
second response is flagged from_cache; queries with surrounding
whitespace miss the cache on the second call because the lookup key uses
the raw query while the store key uses the stripped query. -/
theorem C9_cache_hit_on_repeat (env : Env) (now : Nat) (q lang : Str)
    (st : CacheState) (hini : env.initialized = true) (hq : pyStrip q = q)
    (hne : q ≠ []) :
    (enhanced_predict_code env now q lang
        (enhanced_predict_code env now q lang st).2).1.from_cache = true ∧
    (enhanced_predict_code env now q lang
        (enhanced_predict_code env now q lang st).2).1.status =
      (enhanced_predict_code env now q lang st).1.status ∧
    ((enhanced_predict_code env now q lang
        (enhanced_predict_code env now q lang st).2).1.best_match.map
        (fun c => c.code)) =
      ((enhanced_predict_code env now q lang st).1.best_match.map
        (fun c => c.code)) := by
  have hndue : ¬ 900 < now - (cleanup_memory_cache now st).lastCleanup :=
    cleanup_not_due now st
  have hst2 : cleanup_memory_cache now (cleanup_memory_cache now st) =
      cleanup_memory_cache now st := cleanup_noop now _ hndue
  cases hL : lookupAssoc (cleanup_memory_cache now st).entries (cache_key q lang) with
  | some r =>
    have e1 : enhanced_predict_code env now q lang st =
        ({ r with from_cache := true }, cleanup_memory_cache now st) := by
      unfold enhanced_predict_code get_cached_result
      dsimp only
      rw [hL]
    have e2 : enhanced_predict_code env now q lang (cleanup_memory_cache now st) =
        ({ r with from_cache := true }, cleanup_memory_cache now st) := by
      unfold enhanced_predict_code get_cached_result
      dsimp only
      rw [hst2, hL]
    rw [e1, e2]
    exact ⟨rfl, rfl, rfl⟩
  | none =>
    have hinif : ¬ (env.initialized = false) := by
      rw [hini]
      decide
    have hqs : ¬ (pyStrip q = []) := by
      rw [hq]
      exact hne
    have e1 : enhanced_predict_code env now q lang st =
        (compute_response env q lang,
          cache_result q lang (compute_response env q lang)
            (cleanup_memory_cache now st)) := by
      unfold enhanced_predict_code get_cached_result
      dsimp only
      rw [hL]
      dsimp only
      rw [if_neg hinif, if_neg hqs, hq]
    have hst3 : cleanup_memory_cache now
        (cache_result q lang (compute_response env q lang)
          (cleanup_memory_cache now st)) =
        cache_result q lang (compute_response env q lang)
          (cleanup_memory_cache now st) := by
      apply cleanup_noop
      exact hndue
    have e2 : enhanced_predict_code env now q lang
        (cache_result q lang (compute_response env q lang)
          (cleanup_memory_cache now st)) =
        ({ compute_response env q lang with from_cache := true },
          cache_result q lang (compute_response env q lang)
            (cleanup_memory_cache now st)) := by
      unfold enhanced_predict_code get_cached_result
      dsimp only
      rw [hst3]
      have hfound : lookupAssoc
          (cache_result q lang (compute_response env q lang)
            (cleanup_memory_cache now st)).entries (cache_key q lang) =
          some (compute_response env q lang) := by
        unfold cache_result
        dsimp only
        exact lookupAssoc_insertAssoc_self _ _ _
      rw [hfound]
    rw [e1, e2]
    exact ⟨rfl, rfl, rfl⟩

/-! ## Digit-string lemmas (claim C1) -/

lemma digit_not_space {c : Char} (h : isDigitC c = true) : isSpaceC c = false := by
  simp only [isDigitC, decide_eq_true_eq] at h
  simp only [isSpaceC, Bool.decide_or, Bool.or_eq_false_iff, decide_eq_false_iff_not]
  refine ⟨?_, ?_, ?_, ?_⟩ <;> (intro he; subst he; exact absurd h (by decide))

lemma digit_word {c : Char} (h : isDigitC c = true) : isWordC c = true := by
  simp [isWordC, h]

lemma toLowerC_digit {c : Char} (h : isDigitC c = true) : toLowerC c = c := by
  have htab : lowerTable.all (fun p => !isDigitC p.1) = true := by decide
  have hnone : lowerTable.find? (fun p => p.1 = c) = none := by
    rw [List.find?_eq_none]
    intro p hp
    simp only [decide_eq_true_eq]
    intro hpc
    have := List.all_eq_true.mp htab p hp
    rw [hpc] at this
    simp [h] at this
  unfold toLowerC
  rw [hnone]
  rfl

lemma pyLower_digits {s : Str} (h : s.all isDigitC = true) : pyLower s = s := by
  unfold pyLower
  induction s with
  | nil => rfl
  | cons c rest ih =>
    rw [List.all_cons, Bool.and_eq_true] at h
    rw [List.map_cons, toLowerC_digit h.1, ih h.2]

lemma digits_no_space {s : Str} (h : s.all isDigitC = true) :
    ∀ c ∈ s, isSpaceC c = false :=
  fun c hc => digit_not_space (List.all_eq_true.mp h c hc)

lemma stripped_of_no_space {s : Str} (h : ∀ c ∈ s, isSpaceC c = false) :
    strippedStr s :=
  ⟨fun c hc => h c (List.mem_of_mem_head? hc),
   fun c hc => h c (List.mem_of_mem_getLast? hc)⟩

lemma pyStrip_digits {s : Str} (h : s.all isDigitC = true) : pyStrip s = s :=
  pyStrip_eq_self (stripped_of_no_space (digits_no_space h))

lemma startsWith_head_ne {d : Char} {n : Str} : ∀ {c : Char} {t : Str},
    d ≠ c → startsWith (d :: n) (c :: t) = false := by
  intro c t hdc
  unfold startsWith
  simp [hdc]

lemma isSub_head_notin {d : Char} {n : Str} :
    ∀ (s : Str), d ∉ s → isSub (d :: n) s = false := by
  intro s
  induction s with
  | nil => intro _; rfl
  | cons c t ih =>
    intro hd
    have hdc : d ≠ c := fun h => hd (by rw [h]; simp)
    have hdt : d ∉ t := fun h => hd (List.mem_cons_of_mem c h)
    unfold isSub
    rw [List.tails_cons, List.any_cons]
    rw [startsWith_head_ne hdc]
    simpa [isSub] using ih hdt

lemma pyReplaceFuel_head_notin {d : Char} {n new : Str} :
    ∀ (fuel : Nat) (s : Str), d ∉ s →
    pyReplaceFuel (d :: n) new fuel s = s := by
  intro fuel
  induction fuel with
  | zero =>
    intro s _
    cases s <;> rfl
  | succ f ih =>
    intro s hd
    cases s with
    | nil => rfl
    | cons c t =>
      have hdc : d ≠ c := fun h => hd (by rw [h]; simp)
      have hdt : d ∉ t := fun h => hd (List.mem_cons_of_mem c h)
      unfold pyReplaceFuel
      rw [if_neg (by
        intro hk
        rw [startsWith_head_ne hdc] at hk
        exact absurd hk.2 (by simp))]
      rw [ih t hdt]

lemma pyReplace_head_notin {d : Char} {n : Str} (s new : Str) (hd : d ∉ s) :
    pyReplace s (d :: n) new = s :=
  pyReplaceFuel_head_notin s.length s hd

lemma digits_head_notin {s : Str} (hs : s.all isDigitC = true)
    {d : Char} (hd : isDigitC d = false) : d ∉ s := by
  intro hmem
  rw [List.all_eq_true.mp hs d hmem] at hd
  exact absurd hd (by simp)

lemma splitWsGo_nospace :
    ∀ (s acc : Str), (∀ c ∈ s, isSpaceC c = false) →
    splitWsGo s acc =
      if acc.reverse ++ s = [] then [] else [acc.reverse ++ s] := by
  intro s
  induction s with
  | nil =>
    intro acc _
    unfold splitWsGo
    by_cases h : acc = []
    · subst h; rfl
    · rw [if_neg h, if_neg (by simpa using h)]
      simp
  | cons c t ih =>
    intro acc hns
    unfold splitWsGo
    rw [if_neg (by simpa using hns c (by simp))]
    rw [ih (c :: acc) (fun x hx => hns x (List.mem_cons_of_mem c hx))]
    have h1 : (c :: acc).reverse ++ t = acc.reverse ++ (c :: t) := by
      simp
    rw [h1]

lemma splitWs_single {s : Str} (hne : s ≠ [])
    (hns : ∀ c ∈ s, isSpaceC c = false) : splitWs s = [s] := by
  unfold splitWs
  rw [splitWsGo_nospace s [] hns]
  simp [hne]

lemma collapseWsGo_nospace :
    ∀ (s : Str) (b : Bool), (∀ c ∈ s, isSpaceC c = false) →
    collapseWsGo s b = s := by
  intro s
  induction s with
  | nil => intro b _; rfl
  | cons c t ih =>
    intro b hns
    unfold collapseWsGo
    rw [if_neg (by simpa using hns c (by simp))]
    rw [ih false (fun x hx => hns x (List.mem_cons_of_mem c hx))]

lemma subst_map_digits {s : Str} (h : s.all isDigitC = true) :
    s.map (fun c => if isWordC c ∨ isSpaceC c ∨ keptPunct c then c else ' ') = s := by
  induction s with
  | nil => rfl
  | cons c t ih =>
    rw [List.all_cons, Bool.and_eq_true] at h
    rw [List.map_cons, if_pos (Or.inl (by simpa using digit_word h.1)), ih h.2]

lemma normalize_digits {s : Str} (h : s.all isDigitC = true) :
    normalize_text s = s := by
  have hdef : normalize_text s = pyStrip (collapseWs ((pyLower s).map
      (fun c => if isWordC c ∨ isSpaceC c ∨ keptPunct c then c else ' '))) := rfl
  rw [hdef, pyLower_digits h, subst_map_digits h]
  unfold collapseWs
  rw [collapseWsGo_nospace s false (digits_no_space h)]
  exact pyStrip_digits h

lemma foldl_fixpoint {α β : Type} (f : β → α → β) (b : β) :
    ∀ (l : List α), (∀ x ∈ l, f b x = b) → l.foldl f b = b := by
  intro l
  induction l with
  | nil => intro _; rfl
  | cons x t ih =>
    intro h
    rw [List.foldl_cons, h x (by simp)]
    exact ih (fun y hy => h y (List.mem_cons_of_mem x hy))

lemma administrative_terms_heads :
    administrative_terms.all
      (fun t => !t.isEmpty && !isDigitC (t.headD '0')) = true := by decide

lemma product_synonyms_heads :
    product_synonyms.all
      (fun p => !p.1.isEmpty && !isDigitC (p.1.headD '0')) = true := by decide

lemma product_indicators_heads :
    product_indicators.all
      (fun t => !t.isEmpty && !isDigitC (t.headD '0')) = true := by decide

lemma head_shape {t : Str} (h : (!t.isEmpty && !isDigitC (t.headD '0')) = true) :
    ∃ d t', t = d :: t' ∧ isDigitC d = false := by
  rcases t with _ | ⟨d, t'⟩
  · simp at h
  · rw [Bool.and_eq_true] at h
    exact ⟨d, t', rfl, by simpa using h.2⟩

lemma normalized_query_digits {q : Str} (h : q.all isDigitC = true)
    (hne : q ≠ []) : normalized_query_of q = q := by
  have hadm : administrative_terms.foldl
      (fun acc term => pyReplace acc term [' ']) q = q := by
    refine foldl_fixpoint _ q administrative_terms ?_
    intro t ht
    obtain ⟨d, t', rfl, hd⟩ :=
      head_shape (List.all_eq_true.mp administrative_terms_heads t ht)
    exact pyReplace_head_notin q [' '] (digits_head_notin h hd)
  have hdef : normalized_query_of q = product_synonyms.foldl
      (fun acc p => if isSub p.1 acc then pyReplace acc p.1 p.2 else acc)
      (pyStrip (joinSp (splitWs (administrative_terms.foldl
        (fun acc term => pyReplace acc term [' ']) q)))) := rfl
  rw [hdef, hadm, splitWs_single hne (digits_no_space h)]
  have hjoin : joinSp [q] = q := by
    show q ++ [] = q
    simp
  rw [hjoin, pyStrip_digits h]
  refine foldl_fixpoint _ q product_synonyms ?_
  intro p hp
  obtain ⟨d, t', hp1, hd⟩ :=
    head_shape (List.all_eq_true.mp product_synonyms_heads p hp)
  rw [if_neg (by
    rw [hp1, isSub_head_notin q (digits_head_notin h hd)]
    simp)]

lemma expand_variants_digits {q : Str} (h : q.all isDigitC = true)
    (hne : q ≠ []) : expand_variants q = [] := by
  unfold expand_variants
  rw [normalized_query_digits h hne]
  have hpw : priority_words_of q = [] := by
    unfold priority_words_of
    rw [splitWs_single hne (digits_no_space h)]
    have hany : product_indicators.any (fun p => isSub p q) = false := by
      rw [List.any_eq_false]
      intro p hp
      obtain ⟨d, t', hp1, hd⟩ :=
        head_shape (List.all_eq_true.mp product_indicators_heads p hp)
      rw [hp1, isSub_head_notin q (digits_head_notin h hd)]
      simp
    simp [List.filter_cons, hany]
  rw [if_neg (by simp [hpw]), if_neg (by simp)]
  rfl

lemma expand_digits {q : Str} (hdig : pyIsDigit q = true)
    (hlen : 1 < q.length) : expand_query_with_corrections q = [q] := by
  have hq : q ≠ [] ∧ q.all isDigitC = true := by simpa [pyIsDigit] using hdig
  have hstrip : pyStrip q = q := pyStrip_digits hq.2
  have hlower : pyLower q = q := pyLower_digits hq.2
  have hguard : ¬ (q = [] ∨ (pyStrip q).length < 2) := by
    rw [hstrip]
    push_neg
    exact ⟨hq.1, by omega⟩
  have hdef : expand_query_with_corrections q =
      (if expand_dedup (expand_variants (pyLower (pyStrip q)) ++
          [pyLower (pyStrip q)]) [] ≠ []
        then expand_dedup (expand_variants (pyLower (pyStrip q)) ++
          [pyLower (pyStrip q)]) []
        else [q]) := by
    unfold expand_query_with_corrections
    rw [if_neg hguard]
  rw [hdef, hstrip, hlower, expand_variants_digits hq.2 hq.1]
  have hdd : expand_dedup ([] ++ [q]) [] = [q] := by
    show expand_dedup [q] [] = [q]
    unfold expand_dedup
    rw [if_pos ⟨hq.1, by simp, by rw [hstrip]; exact hlen⟩, hstrip]
    rfl
  rw [hdd, if_pos (by simp)]

lemma cvw_digits {q : Str} (h : q.all isDigitC = true) (hlen : 1 < q.length) :
    contains_valid_word q = true := by
  have hne : q ≠ [] := by
    intro h0
    rw [h0] at hlen
    simp at hlen
  have hdef : contains_valid_word q = (splitWs (normalize_text q)).any
      (fun w => w ∈ variation_to_base_keys ∨ 1 < w.length) := rfl
  rw [hdef, normalize_digits h, splitWs_single hne (digits_no_space h)]
  simp [hlen]

lemma all_candidates_digits (env : Env) {q : Str} (lang : Str)
    (hdig : pyIsDigit q = true) (hlen : 1 < q.length) :
    all_candidates env q lang =
      exact_match_search env q ++
        hybrid_stage env q q (normalize_text q)
          (remove_stopwords (env.lemmatize (normalize_text q)) lang) := by
  have hq : q ≠ [] ∧ q.all isDigitC = true := by simpa [pyIsDigit] using hdig
  have hcvw : contains_valid_word (normalize_text q) = true := by
    rw [normalize_digits hq.2]
    exact cvw_digits hq.2 hlen
  have hdef : all_candidates env q lang =
      (expand_query_with_corrections q).foldl
        (fun acc eq =>
          if contains_valid_word (normalize_text eq) then
            acc ++ exact_match_search env eq ++
              hybrid_stage env eq q (normalize_text eq)
                (remove_stopwords (env.lemmatize (normalize_text eq)) lang)
          else acc) [] := rfl
  rw [hdef, expand_digits hdig hlen]
  simp only [List.foldl_cons, List.foldl_nil]
  rw [if_pos hcvw]
  simp

lemma exact_match_head (env : Env) {q : Str} (e : Entry)
    (hdig : pyIsDigit q = true) (hlen10 : q.length = 10)
    (hfilter : env.entries.filter (fun r => r.code = q) = [e]) :
    ∃ P, exact_match_search env q =
        { code := e.code, description := e.description, relevance_score := 1,
          search_type := str "exact_code" } :: P ∧
      ∀ c ∈ P, c.relevance_score ≤ 1 := by
  unfold exact_match_search
  dsimp only
  rw [if_pos ⟨hdig, hlen10⟩, hfilter, List.map_cons, List.map_nil,
    List.singleton_append]
  refine ⟨_, rfl, ?_⟩
  intro c hc
  rw [List.mem_filterMap] at hc
  obtain ⟨r, _, hg⟩ := hc
  split at hg
  · rw [Option.some.injEq] at hg
    rw [← hg]
    exact min_le_left _ _
  · exact absurd hg (by simp)

lemma dedup_head (c : Candidate) (l : List Candidate) :
    dedup_by_code (c :: l) = c :: dedup_by_code_go [c.code] l := by
  unfold dedup_by_code
  conv_lhs => unfold dedup_by_code_go
  rw [if_neg (by simp)]

lemma sort_head_max (c : Candidate) (l : List Candidate)
    (h : ∀ x ∈ l, x.relevance_score ≤ c.relevance_score) :
    sort_by_relevance (c :: l) = c :: sort_by_relevance l := by
  show insertDesc c (sort_by_relevance l) = c :: sort_by_relevance l
  cases hs : sort_by_relevance l with
  | nil => rfl
  | cons h0 t =>
    unfold insertDesc
    rw [if_neg (by
      have hm : h0 ∈ l := sort_mem l h0 (by rw [hs]; simp)
      exact not_lt.mpr (h h0 hm))]

lemma enrich_head (env : Env) (c : Candidate) (l : List Candidate) (d : Str)
    (hcode : c.code ≠ []) (hdb : env.dbLookup c.code = some d) :
    ∃ t, enrich_with_database_info env (c :: l) = enrich_one env c :: t := by
  have hec : (enrich_one env c).validated = true := by
    unfold enrich_one
    rw [if_neg hcode, hdb]
  unfold enrich_with_database_info
  dsimp only
  rw [List.map_cons]
  have hfc : List.filter (fun r => r.validated)
        (enrich_one env c :: List.map (enrich_one env) l) =
      enrich_one env c :: List.filter (fun r => r.validated)
        (List.map (enrich_one env) l) := by
    rw [List.filter_cons, if_pos (by exact hec)]
  rw [hfc, if_pos (by simp)]
  exact ⟨_, rfl⟩

lemma build_response_high (c : Candidate) (l : List Candidate)
    (hrel : c.relevance_score = 1) :
    (build_response (c :: l)).status = str "high_confidence" ∧
    (build_response (c :: l)).best_match = some (cleanCand c) ∧
    (build_response (c :: l)).confidence = 1 := by
  unfold build_response
  dsimp only
  rw [hrel]
  rw [if_pos (by norm_num [SCORE_THRESHOLD_BEST_MATCH])]
  rw [if_pos (by norm_num)]
  exact ⟨rfl, rfl, rfl⟩

lemma take20_cons (c : Candidate) (l : List Candidate) :
    (c :: l).take 20 = c :: l.take 19 := rfl

/-- C1: a 10-digit numeric query equal to the code of exactly one
catalogue entry yields that code as the best match with
high_confidence and confidence 1.0 (provided the cache misses, the
database validates the code, and the hybrid-stage scores stay within
the unit interval); however the per-variant candidate list is the
concatenation of the exact-match stage and the hybrid (TF-IDF plus
semantic) stage, so the lexical and semantic stages are executed, not
bypassed. -/
theorem C1_exact_code_query (env : Env) (now : Nat) (q lang : Str)
    (st : CacheState) (e : Entry) (d : Str)
    (hini : env.initialized = true)
    (hdig : pyIsDigit q = true) (hlen10 : q.length = 10)
    (hmiss : (get_cached_result now q lang st).1 = none)
    (hfilter : env.entries.filter (fun r => r.code = q) = [e])
    (hdb : env.dbLookup q = some d)
    (hhyb : ∀ c ∈ hybrid_stage env q q (normalize_text q)
        (remove_stopwords (env.lemmatize (normalize_text q)) lang),
        c.relevance_score ≤ 1) :
    ((enhanced_predict_code env now q lang st).1.status =
        str "high_confidence" ∧
      (enhanced_predict_code env now q lang st).1.best_match.map
        (fun c => c.code) = some q ∧
      (enhanced_predict_code env now q lang st).1.confidence = 1) ∧
    all_candidates env q lang =
      exact_match_search env q ++
        hybrid_stage env q q (normalize_text q)
          (remove_stopwords (env.lemmatize (normalize_text q)) lang) := by
  have hq : q ≠ [] ∧ q.all isDigitC = true := by simpa [pyIsDigit] using hdig
  have hlen2 : 1 < q.length := by omega
  have hstrip : pyStrip q = q := pyStrip_digits hq.2
  have hall := all_candidates_digits env lang hdig hlen2
  refine ⟨?_, hall⟩
  have he_code : e.code = q := by
    have hmem : e ∈ env.entries.filter (fun r => r.code = q) := by
      rw [hfilter]
      simp
    have := (List.mem_filter.mp hmem).2
    simpa using this
  -- the exact stage opens with the exact-code candidate
  obtain ⟨P, hem, hPle⟩ := exact_match_head env e hdig hlen10 hfilter
  -- the response is the cache-miss computation
  have hepc : (enhanced_predict_code env now q lang st).1 =
      compute_response env q lang := by
    unfold enhanced_predict_code
    dsimp only
    rw [hmiss]
    rw [if_neg (by rw [hini]; simp)]
    rw [if_neg (by rw [hstrip]; exact hq.1)]
    dsimp only
    rw [hstrip]
  rw [hepc]
  -- decompose the candidate pipeline
  have hAR : all_candidates env q lang =
      { code := e.code, description := e.description, relevance_score := 1,
        search_type := str "exact_code" } :: (P ++
        hybrid_stage env q q (normalize_text q)
          (remove_stopwords (env.lemmatize (normalize_text q)) lang)) := by
    rw [hall, hem]
    simp
  have hrle : ∀ x ∈ P ++ hybrid_stage env q q (normalize_text q)
      (remove_stopwords (env.lemmatize (normalize_text q)) lang),
      x.relevance_score ≤ 1 := by
    intro x hx
    rcases List.mem_append.mp hx with h | h
    · exact hPle x h
    · exact hhyb x h
  have hcrdef : compute_response env q lang =
      build_response
        (if sort_by_relevance (dedup_by_code (all_candidates env q lang)) ≠ []
          then enrich_with_database_info env
            ((sort_by_relevance (dedup_by_code
              (all_candidates env q lang))).take 20)
          else sort_by_relevance (dedup_by_code
            (all_candidates env q lang))) := rfl
  rw [hcrdef, hAR, dedup_head]
  have hDle : ∀ x ∈ dedup_by_code_go
      [({ code := e.code, description := e.description, relevance_score := 1,
          search_type := str "exact_code" } : Candidate).code]
      (P ++ hybrid_stage env q q (normalize_text q)
        (remove_stopwords (env.lemmatize (normalize_text q)) lang)),
      x.relevance_score ≤ 1 := by
    intro x hx
    exact hrle x ((dedup_go_spec _ _).1.subset hx)
  rw [sort_head_max _ _ hDle]
  rw [if_pos (by simp)]
  rw [take20_cons]
  obtain ⟨t, hE⟩ := enrich_head env
    { code := e.code, description := e.description, relevance_score := 1,
      search_type := str "exact_code" } _ d
    (by simpa [he_code] using hq.1) (by simpa [he_code] using hdb)
  rw [hE]
  obtain ⟨hst, hbm, hcf⟩ := build_response_high
    (enrich_one env
      { code := e.code, description := e.description, relevance_score := 1,
        search_type := str "exact_code" }) t
    (by rw [enrich_one_rel])
  refine ⟨hst, ?_, hcf⟩
  rw [hbm]
  simp [cleanCand_code, enrich_one_code, he_code]

/-- entryC1 is the catalogue row for the exact-code scenarios. -/
def entryC1 : Entry :=
  { code := str "0702000000", description := str "Томаты свежие",
    normalized_description := str "томаты свежие",
    lemmatized_description := str "томат свеж" }

/-- envC1w: a minimal initialized environment whose retrieval oracles
return nothing, for exercising the exact-code path. -/
def envC1w : Env :=
  { initialized := true,
    entries := [entryC1],
    lemmatize := fun s => s,
    tfidf := fun _ => [],
    semantic := fun _ => [],
    fuzz := fun _ _ => (0, 0, 0, 0),
    dbLookup := fun _ => some (str "Томаты свежие") }

theorem C1_witness :
    ((enhanced_predict_code envC1w 0 (str "0702000000") (str "ru")
        { entries := [], lastCleanup := 0 }).1.status =
          str "high_confidence" ∧
      (enhanced_predict_code envC1w 0 (str "0702000000") (str "ru")
        { entries := [], lastCleanup := 0 }).1.best_match.map
          (fun c => c.code) = some (str "0702000000") ∧
      (enhanced_predict_code envC1w 0 (str "0702000000") (str "ru")
        { entries := [], lastCleanup := 0 }).1.confidence = 1) ∧
    all_candidates envC1w (str "0702000000") (str "ru") =
      exact_match_search envC1w (str "0702000000") ++
        hybrid_stage envC1w (str "0702000000") (str "0702000000")
          (normalize_text (str "0702000000"))
          (remove_stopwords
            (envC1w.lemmatize (normalize_text (str "0702000000")))
            (str "ru")) := by
  have hempty : hybrid_stage envC1w (str "0702000000") (str "0702000000")
      (normalize_text (str "0702000000"))
      (remove_stopwords
        (envC1w.lemmatize (normalize_text (str "0702000000")))
        (str "ru")) = [] := rfl
  exact C1_exact_code_query envC1w 0 (str "0702000000") (str "ru")
    { entries := [], lastCleanup := 0 } entryC1 (str "Томаты свежие")
    rfl (by decide) rfl rfl (by decide) rfl
    (fun c hc => absurd (hempty ▸ hc) (List.not_mem_nil c))

/-- entryC1b is the second catalogue row of the counterexample
environment. -/
def entryC1b : Entry :=
  { code := str "0707000000", description := str "Огурцы свежие",
    normalized_description := str "огурцы свежие",
    lemmatized_description := str "огурец свеж" }

/-- envC1: an initialized environment whose FAISS oracle reports a hit
on the second entry, for the exact-code counterexample. -/
def envC1 : Env :=
  { initialized := true,
    entries := [entryC1, entryC1b],
    lemmatize := fun s => s,
    tfidf := fun _ => [],
    semantic := fun _ => [(1, 3/5)],
    fuzz := fun _ _ => (0, 0, 0, 0),
    dbLookup := fun _ => some (str "Описание подтверждено базой данных") }

set_option maxHeartbeats 1000000 in
lemma scoreC1sem : calculate_enhanced_relevance_score envC1.fuzz
    (str "0702000000") (str "0702000000") (str "огурцы свежие")
    (str "огурец свеж") (3/5) 1 13 (str "0707000000") = 9/25 := by
  have hbp : category_boost_penalty (pyLower (str "0702000000"))
      (str "0707000000") = (0, 0) := by
    have hlow : pyLower (str "0702000000") = str "0702000000" := by decide
    have hfl : (food_keywords.any (fun k => isSub k (str "0702000000")) = false) ∧
        (meat_keywords.any (fun k => isSub k (str "0702000000")) = false) ∧
        (vegetable_keywords.any (fun k => isSub k (str "0702000000")) = false) ∧
        (fruit_keywords.any (fun k => isSub k (str "0702000000")) = false) ∧
        (metal_keywords.any (fun k => isSub k (str "0702000000")) = false) ∧
        (construction_keywords.any (fun k => isSub k (str "0702000000")) = false) ∧
        (textile_keywords.any (fun k => isSub k (str "0702000000")) = false) := by
      decide
    have hsub : (isSub (str "виноград") (str "0702000000") = false) ∧
        (isSub (str "изюм") (str "0702000000") = false) ∧
        (isSub (str "томат") (str "0702000000") = false) ∧
        (isSub (str "помидор") (str "0702000000") = false) ∧
        (isSub (str "огурец") (str "0702000000") = false) ∧
        (isSub (str "корнишон") (str "0702000000") = false) ∧
        (isSub (str "гипсокартон") (str "0702000000") = false) ∧
        (isSub (str "профил") (str "0702000000") = false) := by decide
    have hany : ([str "виноград", str "изюм", str "фрукт", str "ягод",
        str "орех"].any (fun w => isSub w (str "0702000000")) = false) ∧
        ([str "томат", str "помидор", str "картофел", str "капуст",
          str "овощ"].any (fun w => isSub w (str "0702000000")) = false) := by
      decide
    obtain ⟨f1, f2, f3, f4, f5, f6, f7⟩ := hfl
    obtain ⟨s1, s2, s3, s4, s5, s6, s7, s8⟩ := hsub
    obtain ⟨a1, a2⟩ := hany
    simp [category_boost_penalty, hlow, f1, f2, f3, f4, f5, f6, f7,
      s1, s2, s3, s4, s5, s6, s7, s8, a1, a2]
  have hsq : (splitWs (str "0702000000")).dedup = [str "0702000000"] := by
    decide
  have hsd : (splitWs (str "огурец свеж")).dedup =
      [str "огурец", str "свеж"] := by decide
  have hmem1 : (str "0702000000") ∉ [str "огурец", str "свеж"] := by decide
  have hpt : (str "0702000000") ∉ product_terms := by decide
  have hphr : isSub (str "0702000000") (str "огурец свеж") = false := by decide
  have hsw1 : splitWs (str "0702000000") = [str "0702000000"] := by decide
  have hsw2 : splitWs (str "огурец свеж") = [str "огурец", str "свеж"] := by
    decide
  simp [calculate_enhanced_relevance_score, hbp, hsq, hsd, hmem1, hpt, hphr,
    hsw1, hsw2, envC1, SEMANTIC_THRESHOLD]
  rw [show (List.filter (fun w => decide (w = str "огурец") ||
      decide (w = str "свеж")) [str "0702000000"]) = [] from by decide]
  rw [if_neg (show ¬ (str "0702000000" = str "огурец" ∨
      str "0702000000" = str "свеж") from by decide)]
  norm_num

/-- candC1ex is the exact-code candidate of the counterexample run. -/
def candC1ex : Candidate :=
  { code := str "0702000000", description := str "Томаты свежие",
    relevance_score := 1, search_type := str "exact_code" }

/-- candC1sem is the semantic-stage candidate of the counterexample run. -/
def candC1sem : Candidate :=
  { code := str "0707000000", description := str "Огурцы свежие",
    relevance_score := 9/25, search_type := str "semantic" }

/-- candC1ex' is candC1ex after database enrichment. -/
def candC1ex' : Candidate :=
  { code := str "0702000000",
    description := str "Описание подтверждено базой данных",
    relevance_score := 1, search_type := str "exact_code", validated := true }

/-- candC1sem' is candC1sem after database enrichment. -/
def candC1sem' : Candidate :=
  { code := str "0707000000",
    description := str "Описание подтверждено базой данных",
    relevance_score := 9/25, search_type := str "semantic",
    validated := true }

lemma hybridC1 : hybrid_stage envC1 (str "0702000000") (str "0702000000")
    (normalize_text (str "0702000000"))
    (remove_stopwords (envC1.lemmatize (normalize_text (str "0702000000")))
      (str "ru")) =
    [{ code := str "0707000000", description := str "Огурцы свежие",
       relevance_score := calculate_enhanced_relevance_score envC1.fuzz
         (str "0702000000") (str "0702000000") (str "огурцы свежие")
         (str "огурец свеж") (3/5) 1 13 (str "0707000000"),
       search_type := str "semantic" }] := rfl

lemma allcandC1 : all_candidates envC1 (str "0702000000") (str "ru") =
    [candC1ex, candC1sem] := by
  have h := @all_candidates_digits envC1 (str "0702000000") (str "ru")
    (by decide) (by decide)
  rw [hybridC1, scoreC1sem] at h
  rw [h]
  rfl

lemma sortC1 : sort_by_relevance [candC1ex, candC1sem] =
    [candC1ex, candC1sem] := by
  show insertDesc candC1ex (sort_by_relevance [candC1sem]) = _
  rw [show sort_by_relevance [candC1sem] = [candC1sem] from rfl]
  unfold insertDesc
  rw [if_neg (show ¬ candC1ex.relevance_score < candC1sem.relevance_score by
    show ¬ (1 : ℚ) < 9/25
    norm_num)]

lemma simC1 : similar_loop SCORE_THRESHOLD_TOP_SIMILAR
    TOP_K_BEST_MATCH_SIMILAR [candC1sem'] [candC1ex'.code] [] =
    [candC1sem'] := by
  unfold similar_loop
  dsimp only
  have hkeep : SCORE_THRESHOLD_TOP_SIMILAR ≤ candC1sem'.relevance_score ∧
      candC1sem'.code ∉ [candC1ex'.code] := by
    constructor
    · show (0.3 : ℚ) ≤ 9/25
      norm_num
    · decide
  rw [if_pos hkeep, if_pos hkeep]
  simp only [List.nil_append]
  rw [if_neg (show ¬ (TOP_K_BEST_MATCH_SIMILAR ≤ List.length [candC1sem'])
    by decide)]
  rfl

lemma buildC1 : build_response [candC1ex', candC1sem'] =
    { status := str "high_confidence",
      message := str "High confidence match found",
      best_match := some (cleanCand candC1ex'),
      top_similar := [cleanCand candC1sem'],
      confidence := 1, from_cache := false, total_candidates := 2 } := by
  unfold build_response
  dsimp only
  have h1 : SCORE_THRESHOLD_BEST_MATCH ≤ candC1ex'.relevance_score := by
    show (0.55 : ℚ) ≤ 1
    norm_num
  have h2 : (0.85 : ℚ) ≤ candC1ex'.relevance_score := by
    show (0.85 : ℚ) ≤ 1
    norm_num
  rw [if_pos h1, if_pos h2, simC1]
  rfl

/-- C1 counterexample to "bypassing the lexical and semantic retrieval
stages": for the 10-digit query 0702000000, which exactly matches a
catalogue code, the returned response still carries a candidate
produced by the semantic (FAISS) stage in top_similar. -/
theorem C1_counterexample :
    ∃ c ∈ (enhanced_predict_code envC1 0 (str "0702000000") (str "ru")
        { entries := [], lastCleanup := 0 }).1.top_similar,
      c.search_type = str "semantic" := by
  have hepc : (enhanced_predict_code envC1 0 (str "0702000000") (str "ru")
      { entries := [], lastCleanup := 0 }).1 =
      compute_response envC1 (str "0702000000") (str "ru") := rfl
  have hcr : compute_response envC1 (str "0702000000") (str "ru") =
      build_response
        (if sort_by_relevance (dedup_by_code
            (all_candidates envC1 (str "0702000000") (str "ru"))) ≠ []
          then enrich_with_database_info envC1
            ((sort_by_relevance (dedup_by_code
              (all_candidates envC1 (str "0702000000") (str "ru")))).take 20)
          else sort_by_relevance (dedup_by_code
            (all_candidates envC1 (str "0702000000") (str "ru")))) := rfl
  have hdd : dedup_by_code [candC1ex, candC1sem] = [candC1ex, candC1sem] := rfl
  have hen : enrich_with_database_info envC1
      (([candC1ex, candC1sem] : List Candidate).take 20) =
      [candC1ex', candC1sem'] := rfl
  rw [hepc, hcr, allcandC1, hdd, sortC1]
  rw [if_pos (by simp)]
  rw [hen, buildC1]
  exact ⟨cleanCand candC1sem', by simp, rfl⟩

theorem C9_witness :
    (enhanced_predict_code envC1w 0 (str "0702000000") (str "ru")
        (enhanced_predict_code envC1w 0 (str "0702000000") (str "ru")
          { entries := [], lastCleanup := 0 }).2).1.from_cache = true ∧
    (enhanced_predict_code envC1w 0 (str "0702000000") (str "ru")
        (enhanced_predict_code envC1w 0 (str "0702000000") (str "ru")
          { entries := [], lastCleanup := 0 }).2).1.status =
      (enhanced_predict_code envC1w 0 (str "0702000000") (str "ru")
        { entries := [], lastCleanup := 0 }).1.status ∧
    ((enhanced_predict_code envC1w 0 (str "0702000000") (str "ru")
        (enhanced_predict_code envC1w 0 (str "0702000000") (str "ru")
          { entries := [], lastCleanup := 0 }).2).1.best_match.map
        (fun c => c.code)) =
      ((enhanced_predict_code envC1w 0 (str "0702000000") (str "ru")
        { entries := [], lastCleanup := 0 }).1.best_match.map
        (fun c => c.code)) :=
  C9_cache_hit_on_repeat envC1w 0 (str "0702000000") (str "ru")
    { entries := [], lastCleanup := 0 } rfl (by decide) (by decide)

/-- C9 counterexample to the every-query reading: a query with leading
whitespace is stored under its stripped form but looked up raw, so the
immediate repeat is not served from the cache. -/
theorem C9_counterexample :
    (enhanced_predict_code envC1w 0 (str " х") (str "ru")
        (enhanced_predict_code envC1w 0 (str " х") (str "ru")
          { entries := [], lastCleanup := 0 }).2).1.from_cache = false := rfl

theorem C8_witness :
    ((compute_response envC1 (str "0702000000") (str "ru")).top_similar).Pairwise
      relGE ∧
    (∀ b, (compute_response envC1 (str "0702000000") (str "ru")).best_match =
        some b →
      ∀ c ∈ (compute_response envC1 (str "0702000000") (str "ru")).top_similar,
        c.relevance_score ≤ b.relevance_score) :=
  C8_response_order envC1 (str "0702000000") (str "ru")

/-- entryC2 is the catalogue row of the deduplication counterexample. -/
def entryC2 : Entry :=
  { code := str "0806200000", description := str "Виноград сушеный",
    normalized_description := str "виноград сушеный",
    lemmatized_description := str "виноград сушен" }

/-- envC2: an environment whose TF-IDF and FAISS oracles both hit the
single entry, so the exact-phrase candidate and the boosted hybrid
candidate carry the same code. -/
def envC2 : Env :=
  { initialized := true,
    entries := [entryC2],
    lemmatize := fun s => s,
    tfidf := fun _ => [(0, 1/5)],
    semantic := fun _ => [(0, 9/10)],
    fuzz := fun _ _ => (50, 100, 60, 60),
    dbLookup := fun _ => some (str "Описание подтверждено базой данных") }

set_option maxHeartbeats 1000000 in
lemma scoreC2 : calculate_enhanced_relevance_score envC2.fuzz
    (str "виноград") (str "виноград") (str "виноград сушеный")
    (str "виноград сушен") (9/10) 1 16 (str "0806200000") = 1 := by
  have hbp : category_boost_penalty (pyLower (str "виноград"))
      (str "0806200000") = (0.4, 0) := by
    have hlow : pyLower (str "виноград") = str "виноград" := by decide
    have h1 : List.take 4 (str "0806200000") = str "0806" := by decide
    have hfl : (food_keywords.any (fun k => isSub k (str "виноград")) = true) ∧
        (meat_keywords.any (fun k => isSub k (str "виноград")) = false) ∧
        (vegetable_keywords.any (fun k => isSub k (str "виноград")) = false) ∧
        (fruit_keywords.any (fun k => isSub k (str "виноград")) = true) ∧
        (metal_keywords.any (fun k => isSub k (str "виноград")) = false) ∧
        (construction_keywords.any (fun k => isSub k (str "виноград")) = false) ∧
        (textile_keywords.any (fun k => isSub k (str "виноград")) = false) := by
      decide
    have hsub : (isSub (str "виноград") (str "виноград") = true) ∧
        (isSub (str "томат") (str "виноград") = false) ∧
        (isSub (str "помидор") (str "виноград") = false) ∧
        (isSub (str "огурец") (str "виноград") = false) ∧
        (isSub (str "корнишон") (str "виноград") = false) ∧
        (isSub (str "гипсокартон") (str "виноград") = false) ∧
        (isSub (str "профил") (str "виноград") = false) := by decide
    have hsw : (startsWithAny (str "0806") fruit_codes = true) ∧
        (startsWith (str "08") (str "0806") = true) ∧
        (startsWith (str "02") (str "0806") = false) ∧
        ([str "виноград", str "изюм", str "фрукт", str "ягод", str "орех"].any
          (fun w => isSub w (str "виноград")) = true) ∧
        ([str "томат", str "помидор", str "картофел", str "капуст", str "овощ"].any
          (fun w => isSub w (str "виноград")) = false) := by decide
    obtain ⟨f1, f2, f3, f4, f5, f6, f7⟩ := hfl
    obtain ⟨s1, s2, s3, s4, s5, s6, s7⟩ := hsub
    obtain ⟨w1, w2, w3, w4, w5⟩ := hsw
    simp [category_boost_penalty, hlow, h1, f1, f2, f3, f4, f5, f6, f7,
      s1, s2, s3, s4, s5, s6, s7, w1, w2, w3, w4, w5]
  have hsq : (splitWs (str "виноград")).dedup = [str "виноград"] := by decide
  have hsd : (splitWs (str "виноград сушен")).dedup =
      [str "виноград", str "сушен"] := by decide
  have hsw1 : splitWs (str "виноград") = [str "виноград"] := by decide
  have hsw2 : splitWs (str "виноград сушен") =
      [str "виноград", str "сушен"] := by decide
  have hmem1 : (str "виноград") ∈ [str "виноград", str "сушен"] := by decide
  have hpt : (str "виноград") ∈ product_terms := by decide
  have hphr : isSub (str "виноград") (str "виноград сушен") = true := by decide
  simp [calculate_enhanced_relevance_score, hbp, hsq, hsd, hsw1, hsw2,
    hmem1, hpt, hphr, envC2, SEMANTIC_THRESHOLD]
  rw [if_pos (show 3 < List.length (str "виноград") by decide)]
  norm_num

/-- candC2a is the exact-phrase candidate of the deduplication run. -/
def candC2a : Candidate :=
  { code := str "0806200000", description := str "Виноград сушеный",
    relevance_score := 1, search_type := str "exact_phrase" }

/-- candC2b is the boosted hybrid candidate of the deduplication run. -/
def candC2b : Candidate :=
  { code := str "0806200000", description := str "Виноград сушеный",
    relevance_score := 11/10, search_type := str "hybrid" }

lemma exactC2 : exact_match_search envC2 (str "виноград") =
    [{ code := str "0806200000", description := str "Виноград сушеный",
       relevance_score := min 1 (0.9 +
         (1 - (((0 : Nat) : ℚ) / (((16 : Nat)) : ℚ)) * 0.3) * 0.1),
       search_type := str "exact_phrase" }] := rfl

lemma hybridC2 : hybrid_stage envC2 (str "виноград") (str "виноград")
    (normalize_text (str "виноград"))
    (remove_stopwords (envC2.lemmatize (normalize_text (str "виноград")))
      (str "ru")) =
    [{ code := str "0806200000", description := str "Виноград сушеный",
       relevance_score :=
         (if (0.3 : ℚ) < 9/10 then
           calculate_enhanced_relevance_score envC2.fuzz (str "виноград")
             (str "виноград") (str "виноград сушеный") (str "виноград сушен")
             (9/10) 1 16 (str "0806200000") * 1.1
         else
           calculate_enhanced_relevance_score envC2.fuzz (str "виноград")
             (str "виноград") (str "виноград сушеный") (str "виноград сушен")
             (9/10) 1 16 (str "0806200000")),
       search_type := str "hybrid" }] := rfl

lemma relC2a : min (1 : ℚ) (0.9 +
    (1 - (((0 : Nat) : ℚ) / (((16 : Nat)) : ℚ)) * 0.3) * 0.1) = 1 := by
  norm_num

lemma relC2b : (if (0.3 : ℚ) < 9/10 then
      calculate_enhanced_relevance_score envC2.fuzz (str "виноград")
        (str "виноград") (str "виноград сушеный") (str "виноград сушен")
        (9/10) 1 16 (str "0806200000") * 1.1
    else
      calculate_enhanced_relevance_score envC2.fuzz (str "виноград")
        (str "виноград") (str "виноград сушеный") (str "виноград сушен")
        (9/10) 1 16 (str "0806200000")) = 11/10 := by
  rw [scoreC2, if_pos (show (0.3 : ℚ) < 9/10 by norm_num)]
  norm_num

lemma allcandC2 : all_candidates envC2 (str "виноград") (str "ru") =
    [candC2a, candC2b] := by
  have hdef : all_candidates envC2 (str "виноград") (str "ru") =
      (expand_query_with_corrections (str "виноград")).foldl
        (fun acc eq =>
          if contains_valid_word (normalize_text eq) then
            acc ++ exact_match_search envC2 eq ++
              hybrid_stage envC2 eq (str "виноград") (normalize_text eq)
                (remove_stopwords (envC2.lemmatize (normalize_text eq))
                  (str "ru"))
          else acc) [] := rfl
  rw [hdef]
  rw [show expand_query_with_corrections (str "виноград") =
    [str "виноград"] from by decide]
  simp only [List.foldl_cons, List.foldl_nil]
  rw [if_pos (show contains_valid_word (normalize_text (str "виноград")) =
    true from by decide)]
  rw [exactC2, hybridC2, relC2a, relC2b]
  rfl

/-- C2 counterexample to "highest score wins": in the run on query
виноград the accumulated candidates share one code, the first has the
lower score 1.0 and the second the boosted score 1.1, and
deduplication keeps the lower-scored first occurrence. -/
theorem C2_counterexample :
    all_candidates envC2 (str "виноград") (str "ru") = [candC2a, candC2b] ∧
    candC2a.code = candC2b.code ∧
    candC2a.relevance_score < candC2b.relevance_score ∧
    dedup_by_code [candC2a, candC2b] = [candC2a] := by
  refine ⟨allcandC2, rfl, ?_, rfl⟩
  show (1 : ℚ) < 11/10
  norm_num

theorem C2_witness :
    [candC2a, candC2b].find? (fun x => x.code = candC2a.code) =
      some candC2a :=
  (C2_first_occurrence_survives.1 [candC2a, candC2b]).2.2 candC2a (by
    rw [show dedup_by_code [candC2a, candC2b] = [candC2a] from rfl]
    simp)

/-- entryC3 is the catalogue row of the score-bound counterexample. -/
def entryC3 : Entry :=
  { code := str "0808300000", description := str "Груша свежая",
    normalized_description := str "груша свежая",
    lemmatized_description := str "груш свеж" }

/-- envC3: an environment in which the single hybrid candidate gets the
semantic boost, pushing its score above 1. -/
def envC3 : Env :=
  { initialized := true,
    entries := [entryC3],
    lemmatize := fun s => if s = str "груши" then str "груш" else s,
    tfidf := fun _ => [(0, 3/10)],
    semantic := fun _ => [(0, 17/20)],
    fuzz := fun _ _ => (67, 80, 67, 67),
    dbLookup := fun _ => some (str "Описание подтверждено базой данных") }

set_option maxHeartbeats 1000000 in
lemma scoreC3 : calculate_enhanced_relevance_score envC3.fuzz
    (str "груши") (str "груш") (str "груша свежая") (str "груш свеж")
    (17/20) 1 12 (str "0808300000") = 1 := by
  have hbp : category_boost_penalty (pyLower (str "груши"))
      (str "0808300000") = (0.4, 0) := by
    have hlow : pyLower (str "груши") = str "груши" := by decide
    have h1 : List.take 4 (str "0808300000") = str "0808" := by decide
    have hfl : (food_keywords.any (fun k => isSub k (str "груши")) = false) ∧
        (meat_keywords.any (fun k => isSub k (str "груши")) = false) ∧
        (vegetable_keywords.any (fun k => isSub k (str "груши")) = false) ∧
        (fruit_keywords.any (fun k => isSub k (str "груши")) = true) ∧
        (metal_keywords.any (fun k => isSub k (str "груши")) = false) ∧
        (construction_keywords.any (fun k => isSub k (str "груши")) = false) ∧
        (textile_keywords.any (fun k => isSub k (str "груши")) = false) := by
      decide
    have hsub : (isSub (str "виноград") (str "груши") = false) ∧
        (isSub (str "изюм") (str "груши") = false) ∧
        (isSub (str "томат") (str "груши") = false) ∧
        (isSub (str "помидор") (str "груши") = false) ∧
        (isSub (str "огурец") (str "груши") = false) ∧
        (isSub (str "корнишон") (str "груши") = false) ∧
        (isSub (str "гипсокартон") (str "груши") = false) ∧
        (isSub (str "профил") (str "груши") = false) := by decide
    have hsw : (startsWithAny (str "0808") fruit_codes = true) ∧
        ([str "виноград", str "изюм", str "фрукт", str "ягод", str "орех"].any
          (fun w => isSub w (str "груши")) = false) ∧
        ([str "томат", str "помидор", str "картофел", str "капуст", str "овощ"].any
          (fun w => isSub w (str "груши")) = false) := by decide
    obtain ⟨f1, f2, f3, f4, f5, f6, f7⟩ := hfl
    obtain ⟨s1, s2, s3, s4, s5, s6, s7, s8⟩ := hsub
    obtain ⟨w1, w2, w3⟩ := hsw
    simp [category_boost_penalty, hlow, h1, f1, f2, f3, f4, f5, f6, f7,
      s1, s2, s3, s4, s5, s6, s7, s8, w1, w2, w3]
  have hsq : (splitWs (str "груш")).dedup = [str "груш"] := by decide
  have hsd : (splitWs (str "груш свеж")).dedup =
      [str "груш", str "свеж"] := by decide
  have hsw1 : splitWs (str "груш") = [str "груш"] := by decide
  have hsw2 : splitWs (str "груш свеж") = [str "груш", str "свеж"] := by decide
  have hmem1 : (str "груш") ∈ [str "груш", str "свеж"] := by decide
  have hpt : (str "груш") ∈ product_terms := by decide
  have hphr : isSub (str "груш") (str "груш свеж") = true := by decide
  simp [calculate_enhanced_relevance_score, hbp, hsq, hsd, hsw1, hsw2,
    hmem1, hpt, hphr, envC3, SEMANTIC_THRESHOLD]
  rw [if_pos (show 3 < List.length (str "груш") by decide)]
  norm_num

/-- candC3 is the boosted hybrid candidate of the score-bound run. -/
def candC3 : Candidate :=
  { code := str "0808300000", description := str "Груша свежая",
    relevance_score := 11/10, search_type := str "hybrid" }

/-- candC3e is candC3 after database enrichment. -/
def candC3e : Candidate :=
  { code := str "0808300000",
    description := str "Описание подтверждено базой данных",
    relevance_score := 11/10, search_type := str "hybrid",
    validated := true }

lemma hybridC3 : hybrid_stage envC3 (str "груши") (str "груши")
    (normalize_text (str "груши"))
    (remove_stopwords (envC3.lemmatize (normalize_text (str "груши")))
      (str "ru")) =
    [{ code := str "0808300000", description := str "Груша свежая",
       relevance_score :=
         (if (0.3 : ℚ) < 17/20 then
           calculate_enhanced_relevance_score envC3.fuzz (str "груши")
             (str "груш") (str "груша свежая") (str "груш свеж")
             (17/20) 1 12 (str "0808300000") * 1.1
         else
           calculate_enhanced_relevance_score envC3.fuzz (str "груши")
             (str "груш") (str "груша свежая") (str "груш свеж")
             (17/20) 1 12 (str "0808300000")),
       search_type := str "hybrid" }] := rfl

lemma relC3 : (if (0.3 : ℚ) < 17/20 then
      calculate_enhanced_relevance_score envC3.fuzz (str "груши")
        (str "груш") (str "груша свежая") (str "груш свеж")
        (17/20) 1 12 (str "0808300000") * 1.1
    else
      calculate_enhanced_relevance_score envC3.fuzz (str "груши")
        (str "груш") (str "груша свежая") (str "груш свеж")
        (17/20) 1 12 (str "0808300000")) = 11/10 := by
  rw [scoreC3, if_pos (show (0.3 : ℚ) < 17/20 by norm_num)]
  norm_num

lemma allcandC3 : all_candidates envC3 (str "груши") (str "ru") =
    [candC3] := by
  have hdef : all_candidates envC3 (str "груши") (str "ru") =
      (expand_query_with_corrections (str "груши")).foldl
        (fun acc eq =>
          if contains_valid_word (normalize_text eq) then
            acc ++ exact_match_search envC3 eq ++
              hybrid_stage envC3 eq (str "груши") (normalize_text eq)
                (remove_stopwords (envC3.lemmatize (normalize_text eq))
                  (str "ru"))
          else acc) [] := rfl
  rw [hdef]
  rw [show expand_query_with_corrections (str "груши") =
    [str "груши"] from by decide]
  simp only [List.foldl_cons, List.foldl_nil]
  rw [if_pos (show contains_valid_word (normalize_text (str "груши")) =
    true from by decide)]
  rw [show exact_match_search envC3 (str "груши") = [] from rfl]
  rw [hybridC3, relC3]
  rfl

lemma simC3 : similar_loop SCORE_THRESHOLD_TOP_SIMILAR
    TOP_K_BEST_MATCH_SIMILAR [] [candC3e.code] [] = [] := rfl

lemma buildC3 : build_response [candC3e] =
    { status := str "high_confidence",
      message := str "High confidence match found",
      best_match := some (cleanCand candC3e),
      top_similar := [], confidence := 11/10, from_cache := false,
      total_candidates := 1 } := by
  unfold build_response
  dsimp only
  have h1 : SCORE_THRESHOLD_BEST_MATCH ≤ candC3e.relevance_score := by
    show (0.55 : ℚ) ≤ 11/10
    norm_num
  have h2 : (0.85 : ℚ) ≤ candC3e.relevance_score := by
    show (0.85 : ℚ) ≤ 11/10
    norm_num
  rw [if_pos h1, if_pos h2, simC3]
  rfl

/-- C3 counterexample to the [0,1] reading: the run on query груши
returns a best match whose relevance_score is 1.1, because the 10
percent hybrid boost is applied after the clamp. -/
theorem C3_counterexample :
    ∃ c ∈ response_candidates
        (compute_response envC3 (str "груши") (str "ru")),
      1 < c.relevance_score := by
  have hcr : compute_response envC3 (str "груши") (str "ru") =
      build_response
        (if sort_by_relevance (dedup_by_code
            (all_candidates envC3 (str "груши") (str "ru"))) ≠ []
          then enrich_with_database_info envC3
            ((sort_by_relevance (dedup_by_code
              (all_candidates envC3 (str "груши") (str "ru")))).take 20)
          else sort_by_relevance (dedup_by_code
            (all_candidates envC3 (str "груши") (str "ru")))) := rfl
  rw [hcr, allcandC3]
  rw [show dedup_by_code [candC3] = [candC3] from rfl]
  rw [show sort_by_relevance [candC3] = [candC3] from rfl]
  rw [if_pos (by simp)]
  rw [show enrich_with_database_info envC3
    (([candC3] : List Candidate).take 20) = [candC3e] from rfl]
  rw [buildC3]
  refine ⟨cleanCand candC3e, ?_, ?_⟩
  · simp [response_candidates]
  · show (1 : ℚ) < 11/10
    norm_num

theorem C3_witness :
    0 ≤ calculate_enhanced_relevance_score envC2.fuzz (str "виноград")
        (str "виноград") (str "виноград сушеный") (str "виноград сушен")
        (9/10) 1 16 (str "0806200000") ∧
      calculate_enhanced_relevance_score envC2.fuzz (str "виноград")
        (str "виноград") (str "виноград сушеный") (str "виноград сушен")
        (9/10) 1 16 (str "0806200000") ≤ 1 :=
  C3_relevance_bounds.1 envC2.fuzz (str "виноград") (str "виноград")
    (str "виноград сушеный") (str "виноград сушен") (9/10) 1 16
    (str "0806200000")

/-! ## The smart_search entry point (predictor.smart_search and helpers) -/

